import Mathlib

/-!
Shallow embedding of the getm downloader's core logic and verification of its
specification claims.

The embedding follows the Python sources:
  * `getm/checksum.py`   — checksum verifiers (MD5, GSCRC32C, S3Etag,
    S3MultiEtag, NoopChecksum, GETMChecksum, `_s3_multipart_layouts`);
  * `getm/reader.py`     — the range planner (`part_coords`) and the
    keep-alive reader's buffer-size / `max_read` arithmetic;
  * `getm/concurrent/buffers.py` — `SharedCircularBuffer` index arithmetic;
  * `getm/utils.py`      — `indirect_open` and `compute_buffer_size`;
  * `getm/cli.py`        — the one-shot / multipart download orchestration.

Python byte strings are modelled as `List Byte` with `Byte := Fin 256`.
External hash libraries (`hashlib.md5`, `google_crc32c`, `base64`) are
modelled as opaque function parameters: a `hashlib` hash object is
represented by the list of bytes fed to it so far, and its `hexdigest()` by
applying the abstract digest function to that accumulated input.  Fallible
operations (Python exceptions such as failed `assert`s, `ValueError`, or
non-termination of a loop) are modelled with `Option`.
-/

set_option autoImplicit false

abbrev Byte : Type := Fin 256

/-- Constant `MB = 1024 * 1024`, from `checksum.py`. -/
def MB : Nat := 1024 * 1024

/-- Ceiling division on naturals; models Python's `ceil(a / b)` on exact
integer arithmetic. -/
def cdiv (a b : Nat) : Nat := (a + b - 1) / b

/-! ### Hex encoding (models `hexdigest` / `binascii.unhexlify`) -/

def hexChars : List Char := "0123456789abcdef".data

def hexDigit (n : Nat) : Char := hexChars.getD n 'x'

def hexVal (c : Char) : Nat := hexChars.indexOf c

/-- Two lowercase hex characters for one byte, most significant first. -/
def hexByte (b : Byte) : List Char := [hexDigit (b.val / 16), hexDigit (b.val % 16)]

/-- Lowercase hex string of a byte string: models `hashlib`'s `hexdigest()`
applied to a raw digest. -/
def hexdigest (l : List Byte) : String := String.mk (l.flatMap hexByte)

/-- Decode pairs of hex characters back into bytes: models
`binascii.unhexlify`. -/
def unhexChars : List Char → List Byte
  | a :: b :: rest => ⟨(hexVal a * 16 + hexVal b) % 256, Nat.mod_lt _ (by norm_num)⟩ :: unhexChars rest
  | _ => []

def unhexlify (s : String) : List Byte := unhexChars s.data

/-! ### Checksum verifiers (`getm/checksum.py`)

The external digest functions are abstract parameters:
`md5f` models `hashlib.md5(x).digest()` (16 raw bytes in reality, arbitrary
here), `crc32cf` models `google_crc32c.Checksum(x).digest()`, and `b64e`
models `base64.b64encode(x).decode("utf-8")`.  A `hashlib`/`google_crc32c`
hasher object is represented by the byte string fed to it so far. -/

section Checksum

variable (md5f : List Byte → List Byte)
variable (crc32cf : List Byte → List Byte)
variable (b64e : List Byte → String)

/-- State of an `MD5` verifier: the bytes accumulated by `self._checksum`. -/
def MD5.init : List Byte := []

def MD5.update (acc : List Byte) (data : List Byte) : List Byte := acc ++ data

def MD5.matches (acc : List Byte) (val : String) : Bool :=
  hexdigest (md5f acc) == val

/-- State of a `GSCRC32C` verifier: the bytes accumulated by `self._checksum`. -/
def GSCRC32C.init : List Byte := []

def GSCRC32C.update (acc : List Byte) (data : List Byte) : List Byte := acc ++ data

def GSCRC32C.gs_crc32c (acc : List Byte) : String := b64e (crc32cf acc)

def GSCRC32C.matches (acc : List Byte) (val : String) : Bool :=
  GSCRC32C.gs_crc32c crc32cf b64e acc == val

/-- State of an `S3Etag` verifier: `self.part_size`, `self._etags`, the bytes
fed to `self._current_md5`, and `self._current_part_size`. -/
structure S3EtagState where
  part_size : Nat
  etags : List String
  current : List Byte
  current_part_size : Nat
deriving DecidableEq

def S3Etag.init (part_size : Nat) : S3EtagState := ⟨part_size, [], [], 0⟩

/-- The `while` loop of `S3Etag.update` (`checksum.py` lines 64-73), with an
explicit iteration budget.  On every state the code can actually produce,
`current_part_size < part_size`, each iteration consumes
`to_add = part_size - current_part_size ≥ 1` bytes of `data`, and a budget of
`data.length + 1` is enough (`s3UpdateFuel_irrel` below); exhausting the
budget (`none`) happens exactly where the Python loop does not terminate,
e.g. for `part_size = 0`, where `to_add = 0` and `data` never shrinks. -/
def s3UpdateFuel (md5f : List Byte → List Byte) :
    Nat → S3EtagState → List Byte → Option S3EtagState
  | 0, _, _ => none
  | fuel + 1, st, data =>
    if st.part_size ≤ data.length + st.current_part_size then
      let toAdd := st.part_size - st.current_part_size
      s3UpdateFuel md5f fuel
        ⟨st.part_size, st.etags ++ [hexdigest (md5f (st.current ++ data.take toAdd))], [], 0⟩
        (data.drop toAdd)
    else
      some ⟨st.part_size, st.etags, st.current ++ data, st.current_part_size + data.length⟩

def S3Etag.update (st : S3EtagState) (data : List Byte) : Option S3EtagState :=
  s3UpdateFuel md5f (data.length + 1) st data

/-- The etag list after the final-part flush at the top of `s3_etag`
(`if self._current_part_size: self._etags.append(...)`). -/
def s3FinalEtags (st : S3EtagState) : List String :=
  if st.current_part_size ≠ 0 then st.etags ++ [hexdigest (md5f st.current)] else st.etags

def S3Etag.s3_etag (st : S3EtagState) : String :=
  let etags := s3FinalEtags md5f st
  if etags.length = 1 then etags.headD ""
  else hexdigest (md5f ((etags.map unhexlify).flatten)) ++ "-" ++ toString etags.length

def S3Etag.matches (st : S3EtagState) (val : String) : Bool :=
  S3Etag.s3_etag md5f st == val

/-- Function `_s3_multipart_layouts` (`checksum.py` lines 111-122).  `none` models the
failed `assert size >= MB` (for two or more parts) and the
`ZeroDivisionError` on zero parts.  The candidate count
`1 + (max_part_size - min_part_size) // MB` uses Python floor division,
which on the (possible) negative difference `-MB` yields an empty range. -/
def _s3_multipart_layouts (size number_of_parts : Nat) : Option (List Nat) :=
  if number_of_parts = 1 then some [size]
  else if size < MB then none
  else if number_of_parts = 0 then none
  else
    let min_part_size := cdiv size (number_of_parts * MB) * MB
    let max_part_size := (cdiv size ((number_of_parts - 1) * MB) - 1) * MB
    if min_part_size = max_part_size then some [min_part_size]
    else
      let k : Int := 1 + Int.fdiv ((max_part_size : Int) - (min_part_size : Int)) (MB : Int)
      some ((List.range k.toNat).map (fun i => min_part_size + i * MB))

/-- Constructor `S3MultiEtag.__init__`: `none` models the failed
`assert 5 >= len(part_sizes)` (and failures inside `_s3_multipart_layouts`). -/
def S3MultiEtag.mk (size number_of_parts : Nat) : Option (List S3EtagState) :=
  (_s3_multipart_layouts size number_of_parts).bind fun part_sizes =>
    if 5 < part_sizes.length then none
    else some (part_sizes.map S3Etag.init)

def S3MultiEtag.update (sts : List S3EtagState) (data : List Byte) :
    Option (List S3EtagState) :=
  sts.mapM (fun st => S3Etag.update md5f st data)

def S3MultiEtag.s3_etags (sts : List S3EtagState) : List String :=
  sts.map (S3Etag.s3_etag md5f)

def S3MultiEtag.matches (sts : List S3EtagState) (val : String) : Bool :=
  (S3MultiEtag.s3_etags md5f sts).contains val

/-- The `NoopChecksum` verifier: no state, accepts everything. -/
def NoopChecksum.update (u : Unit) (data : List Byte) : Unit := u

def NoopChecksum.matches (u : Unit) (val : String) : Bool := true

end Checksum

/-! ### `GETMChecksum` (`checksum.py` lines 131-162) -/

/-- The `Algorithms` enum. -/
inductive Algorithm where
  | md5
  | gs_crc32c
  | s3_etag
  | null
deriving DecidableEq

/-- The lazily constructed `self._cs` hasher: one of the four verifier
states. -/
inductive HasherState where
  | md5 (acc : List Byte)
  | gscrc32c (acc : List Byte)
  | s3 (sts : List S3EtagState)
  | noop
deriving DecidableEq

section GETM

variable (md5f : List Byte → List Byte)
variable (crc32cf : List Byte → List Byte)
variable (b64e : List Byte → String)

/-- Construction of `self._cs` in the `cs` property: for `s3_etag` it reads
`self._s3_size` / `self._s3_part_count` (an `AttributeError` — `none` — when
`set_s3_size_and_part_count` was never called) and runs the `S3MultiEtag`
constructor, which can itself fail. -/
def mkHasher (alg : Algorithm) (s3p : Option (Nat × Nat)) : Option HasherState :=
  match alg with
  | .s3_etag =>
    match s3p with
    | none => none
    | some (size, part_count) => (S3MultiEtag.mk size part_count).map .s3
  | .md5 => some (.md5 MD5.init)
  | .gs_crc32c => some (.gscrc32c GSCRC32C.init)
  | .null => some .noop

def hasherUpdate (h : HasherState) (data : List Byte) : Option HasherState :=
  match h with
  | .md5 acc => some (.md5 (MD5.update acc data))
  | .gscrc32c acc => some (.gscrc32c (GSCRC32C.update acc data))
  | .s3 sts => (S3MultiEtag.update md5f sts data).map .s3
  | .noop => some (.noop)

def hasherMatches (h : HasherState) (val : String) : Bool :=
  match h with
  | .md5 acc => MD5.matches md5f acc val
  | .gscrc32c acc => GSCRC32C.matches crc32cf b64e acc val
  | .s3 sts => S3MultiEtag.matches md5f sts val
  | .noop => NoopChecksum.matches () val

/-- State of `GETMChecksum`: the expected digest, the algorithm, the optional
`_s3_size`/`_s3_part_count` pair, and the lazily materialised `_cs`. -/
structure GETMChecksum where
  expected : String
  algorithm : Algorithm
  s3Params : Option (Nat × Nat)
  cs : Option HasherState
deriving DecidableEq

def GETMChecksum.init (expected : String) (algorithm : Algorithm) : GETMChecksum :=
  ⟨expected, algorithm, none, none⟩

def GETMChecksum.set_s3_size_and_part_count (g : GETMChecksum) (size part_count : Nat) :
    GETMChecksum :=
  { g with s3Params := some (size, part_count) }

/-- The `cs` property: return the cached hasher, or construct it. -/
def GETMChecksum.getCs (g : GETMChecksum) : Option HasherState :=
  match g.cs with
  | some c => some c
  | none => mkHasher g.algorithm g.s3Params

/-- Method `GETMChecksum.update`: materialise `cs` (caching it), then update. -/
def GETMChecksum.update (g : GETMChecksum) (data : List Byte) : Option GETMChecksum :=
  (GETMChecksum.getCs g).bind fun c =>
    (hasherUpdate md5f c data).map fun c2 => { g with cs := some c2 }

/-- Method `GETMChecksum.matches`: materialise `cs` (caching it), compare against
`self.expected`; returns the verdict and the state with `_cs` cached. -/
def GETMChecksum.matchesRun (g : GETMChecksum) : Option (Bool × GETMChecksum) :=
  (GETMChecksum.getCs g).map fun c =>
    (hasherMatches md5f crc32cf b64e c g.expected, { g with cs := some c })

end GETM

/-! ### Spec-side definitions for the S3 composite ETag -/

/-- Split a byte string into consecutive chunks of `P` bytes, the last chunk
possibly shorter (helper for the spec-side ETag).  Structured with an
iteration budget of `data.length`, which is enough whenever `P ≥ 1`. -/
def chunksOfGo : Nat → Nat → List Byte → List (List Byte)
  | _, _, [] => []
  | 0, _, _ => []
  | fuel + 1, P, data =>
    if P = 0 then [] else data.take P :: chunksOfGo fuel P (data.drop P)

def chunksOf (P : Nat) (data : List Byte) : List (List Byte) :=
  chunksOfGo data.length P data

/-- Modelled from the spec: the expected S3 ETag of `data` for part size `P`
— split the stream into parts of size `P` (every part of size `P` except a
possibly smaller last part), take the MD5 of the concatenated raw per-part
MD5 digests, and suffix `"-<number of parts>"`; a single part is the plain
MD5 hex digest. -/
def specCompositeEtag (md5f : List Byte → List Byte) (P : Nat) (data : List Byte) : String :=
  let parts := chunksOf P data
  if parts.length = 1 then hexdigest (md5f data)
  else hexdigest (md5f ((parts.map md5f).flatten)) ++ "-" ++ toString parts.length

/-! ### Range planner (`reader.py` lines 241-255) -/

def _number_of_parts (size chunk_size : Nat) : Nat := cdiv size chunk_size

/-- Function `_part_range`: the `(start, part_size)` pair of part `part_id`; the last
part gets `size % chunk_size or chunk_size`. -/
def _part_range (size chunk_size part_id : Nat) : Nat × Nat :=
  let start := part_id * chunk_size
  if part_id = _number_of_parts size chunk_size - 1 then
    (start, if size % chunk_size = 0 then chunk_size else size % chunk_size)
  else
    (start, chunk_size)

/-- Function `part_coords`: the full ordered plan `(part_id, start, length)`. -/
def part_coords (size chunk_size : Nat) : List (Nat × Nat × Nat) :=
  (List.range (_number_of_parts size chunk_size)).map fun part_id =>
    (part_id, _part_range size chunk_size part_id)

/-! ### `SharedCircularBuffer` index arithmetic (`concurrent/buffers.py`)

The data region of the buffer is modelled as a `List Byte` of length
`capacity` (`self.size`); the two trailing coordinate words live outside this
region and are not part of the model.  `none` models a raised `ValueError`
(including the length mismatch a `memoryview` slice assignment raises). -/

def _circular_coords (C : Nat) (a b : Nat) : Option (Nat × Nat × Bool) :=
  if C < b - a then none
  else
    let s := a % C
    let t := b % C
    some (s, t, decide (t ≤ s) || (decide (a ≠ b) && decide (s = t)))

def SharedCircularBuffer.getSlice (buf : List Byte) (a b : Nat) : Option (List Byte) :=
  if a = b then none
  else
    (_circular_coords buf.length a b).bind fun stw =>
      match stw with
      | (s, t, wraps) =>
        if wraps then some (buf.drop s) else some ((buf.drop s).take (t - s))

/-- One `memoryview` slice assignment `view[s:e] = data` on the data region:
fails (`ValueError`) unless the lengths agree. -/
def mvAssign (buf : List Byte) (s e : Nat) (data : List Byte) : Option (List Byte) :=
  if s ≤ e ∧ e ≤ buf.length ∧ data.length = e - s then
    some (buf.take s ++ data ++ buf.drop e)
  else none

def SharedCircularBuffer.setSlice (buf : List Byte) (a b : Nat) (data : List Byte) :
    Option (List Byte) :=
  (_circular_coords buf.length a b).bind fun stw =>
    match stw with
    | (s, t, wraps) =>
      if wraps then
        let wrap_length := buf.length - s
        (mvAssign buf s buf.length (data.take wrap_length)).bind fun buf1 =>
          mvAssign buf1 0 (data.length - wrap_length) (data.drop wrap_length)
      else mvAssign buf s t data

/-! ### Keep-alive reader arithmetic (`reader.py` lines 137-193) and
`compute_buffer_size` (lines 149-160)

`available_shared_memory()` is a platform probe; its result is passed in as
`shm_sz`, with `-1` meaning "cannot be determined" (as on macOS). -/

def URLReaderKeepAlive.compute_buffer_size (shm_sz concurrent_downloads chunk_size : Int) :
    Int :=
  if shm_sz = -1 then 100 * chunk_size
  else
    let buffer_size := Int.fdiv shm_sz concurrent_downloads
    let buffer_size2 := (Int.fdiv buffer_size chunk_size - 1) * chunk_size
    if buffer_size2 > 100 * chunk_size then 100 * chunk_size else buffer_size2

/-- Consumer-side state of `URLReaderKeepAlive`: `self.size`,
`self.chunk_size`, `self.max_read`, `self._start`, `self._stop`. -/
structure KeepAliveState where
  size : Nat
  chunk_size : Nat
  max_read : Nat
  rstart : Nat
  rstop : Nat
deriving DecidableEq

/-- Constructor `URLReaderKeepAlive.__init__` with an explicit `buffer_size`: `none`
models the failed `assert buffer_size >= 3 * chunk_size`.  Note the code sets
`self.max_read = (buffer_size - chunk_size) * self.chunk_size`. -/
def URLReaderKeepAlive.init (url_size chunk_size buffer_size : Nat) : Option KeepAliveState :=
  if buffer_size < 3 * chunk_size then none
  else some ⟨url_size, chunk_size, (buffer_size - chunk_size) * chunk_size, 0, 0⟩

/-- Method `URLReaderKeepAlive.read` against a snapshot of the shared state: `buf`
is the buffer's data region and `bufStop` the producer's published
`self._buf.stop`.  The wait loop re-reads `self._buf.stop`; with a fixed
published value it either exits after at most one refresh or polls forever
(`none`).  `szArg = -1` selects `self.max_read`. -/
def URLReaderKeepAlive.read (st : KeepAliveState) (buf : List Byte) (bufStop : Nat)
    (szArg : Int) : Option (List Byte × KeepAliveState) :=
  let sz0 : Nat := if szArg = -1 then st.max_read else szArg.toNat
  let sz1 := min sz0 st.max_read
  let stop1 := if sz1 > st.rstop - st.rstart ∧ st.rstop < st.size then bufStop else st.rstop
  if sz1 > stop1 - st.rstart ∧ stop1 < st.size then none
  else
    let sz2 := min sz1 (stop1 - st.rstart)
    if sz2 ≠ 0 then
      (SharedCircularBuffer.getSlice buf st.rstart (st.rstart + sz2)).map fun res =>
        (res, { st with rstart := st.rstart + res.length, rstop := stop1 })
    else some ([], { st with rstop := stop1 })

/-! ### `indirect_open` (`utils.py` lines 32-51), as filesystem semantics

A filesystem maps paths to optional contents.  `FsOp` is the alphabet of
filesystem operations the downloader performs; `link` is a hard link, so the
destination keeps the contents even after the source is unlinked. -/

def FS : Type := String → Option (List Byte)

inductive FsOp where
  | write (path : String) (data : List Byte)
  | link (src dst : String)
  | remove (path : String)
deriving DecidableEq

def FsOp.apply (fs : FS) (op : FsOp) : FS :=
  match op with
  | .write p d => fun q => if q = p then some d else fs q
  | .link src dst => fun q => if q = dst then fs src else fs q
  | .remove p => fun q => if q = p then none else fs q

def applyOps (fs : FS) (ops : List FsOp) : FS := ops.foldl FsOp.apply fs

/-- The operations `indirect_open.__exit__` performs: on success remove the
final path if present, hard-link temp to final, then unlink the temp; on
failure just unlink the temp. -/
def indirect_open.exitOps (fs : FS) (filepath tmp : String) (errored : Bool) : List FsOp :=
  (if errored then []
   else (if (fs filepath).isSome then [.remove filepath] else []) ++ [.link tmp filepath])
  ++ [.remove tmp]

/-- A whole `with indirect_open(filepath) as handle:` block whose body writes
`body` into the temporary file and then either completes (`errored = false`)
or raises (`errored = true`). -/
def indirect_open.run (fs0 : FS) (filepath tmp : String) (body : List Byte)
    (errored : Bool) : FS :=
  let fs1 := FsOp.apply fs0 (.write tmp body)
  applyOps fs1 (indirect_open.exitOps fs1 filepath tmp errored)

/-! ### Download orchestration (`cli.py` lines 92-105, 137-174) -/

/-- The branch `_download` takes: `if multipart_threshold >= http.size(url)`. -/
inductive DownloadPath where
  | oneshot
  | multipart
deriving DecidableEq

def _download_path (url_size multipart_threshold : Nat) : DownloadPath :=
  if multipart_threshold ≥ url_size then .oneshot else .multipart

section CLIModel

variable (md5f : List Byte → List Byte)
variable (crc32cf : List Byte → List Byte)
variable (b64e : List Byte → String)

/-- Function `cli.oneshot` for a body of `data` bytes and an already-resolved optional
checksum: read body, feed checksum, `assert cs.matches()`, then write the
file with a plain `open(filepath, "wb")`.  Returns whether it succeeded and
the filesystem operations it performed. -/
def oneshot (filepath : String) (data : List Byte) (cs : Option GETMChecksum) :
    Bool × List FsOp :=
  match cs with
  | none => (true, [.write filepath data])
  | some c =>
    match GETMChecksum.update md5f c data with
    | none => (false, [])
    | some c2 =>
      match GETMChecksum.matchesRun md5f crc32cf b64e c2 with
      | none => (false, [])
      | some (ok, _) => if ok then (true, [.write filepath data]) else (false, [])

/-- Function `cli.multipart` for a stream arriving as `parts`: inside
`indirect_open(filepath)` write each part to the temporary file, feed the
checksum, and assert the checksum at end of stream; `finalExists` tells
whether the final path exists when the context exits. -/
def multipart (filepath tmp : String) (parts : List (List Byte))
    (cs : Option GETMChecksum) (finalExists : Bool) : Bool × List FsOp :=
  let bodyOps := [FsOp.write tmp parts.flatten]
  let verdict : Option Bool :=
    match cs with
    | none => some true
    | some c =>
      (parts.foldlM (GETMChecksum.update md5f) c).bind fun c2 =>
        (GETMChecksum.matchesRun md5f crc32cf b64e c2).map (·.1)
  match verdict with
  | some true =>
    (true, bodyOps ++ (if finalExists then [.remove filepath] else [])
      ++ [.link tmp filepath, .remove tmp])
  | _ => (false, bodyOps ++ [.remove tmp])

end CLIModel

/-- Does a trace write the final path only through the temp-then-link
pattern?  True when some hard link targets the final path and no direct
write does. -/
def usesIndirectWrite (filepath : String) (ops : List FsOp) : Bool :=
  ops.any (fun op => match op with | .link _ dst => dst == filepath | _ => false)
  && ops.all (fun op => match op with | .write p _ => p != filepath | _ => true)

/-- Invariant of every `S3EtagState` the code constructs and maintains:
the in-progress part is strictly shorter than the part size. -/
def S3Valid (st : S3EtagState) : Prop := st.current_part_size < st.part_size


/-! ### Lemmas: chunk splitting -/

theorem hexVal_hexDigit (n : Nat) (h : n < 16) : hexVal (hexDigit n) = n := by
  interval_cases n <;> decide

theorem unhexChars_hexByte (b : Byte) (rest : List Char) :
    unhexChars (hexByte b ++ rest) = b :: unhexChars rest := by
  have h1 : b.val / 16 < 16 := by omega
  have h2 : b.val % 16 < 16 := by omega
  simp only [hexByte, List.cons_append, List.nil_append, unhexChars,
    hexVal_hexDigit _ h1, hexVal_hexDigit _ h2]
  congr 1
  apply Fin.ext
  simp only []
  omega

/-- Round trip: `unhexlify (hexdigest d) = d`. -/
theorem unhexlify_hexdigest (d : List Byte) : unhexlify (hexdigest d) = d := by
  induction d with
  | nil => rfl
  | cons b rest ih =>
    simpa [unhexlify, hexdigest, unhexChars_hexByte] using ih

theorem chunksOfGo_nil (f P : Nat) : chunksOfGo f P [] = [] := by
  cases f <;> rfl

theorem chunksOfGo_irrel (P : Nat) (hP : 1 ≤ P) :
    ∀ (n : Nat) (data : List Byte) (f1 f2 : Nat), data.length = n → n ≤ f1 → n ≤ f2 →
      chunksOfGo f1 P data = chunksOfGo f2 P data := by
  intro n
  induction n using Nat.strong_induction_on with
  | _ n ih =>
    intro data f1 f2 hlen h1 h2
    cases data with
    | nil => simp [chunksOfGo_nil]
    | cons d ds =>
      simp only [List.length_cons] at hlen
      cases f1 with
      | zero => omega
      | succ g1 =>
        cases f2 with
        | zero => omega
        | succ g2 =>
          simp only [chunksOfGo, if_neg (by omega : ¬ P = 0)]
          apply congrArg
          apply ih (ds.length + 1 - P) (by omega) _ g1 g2
          · simp only [List.length_drop, List.length_cons]
          · omega
          · omega

theorem chunksOf_nil (P : Nat) : chunksOf P [] = [] := rfl

theorem chunksOf_cons (P : Nat) (hP : 1 ≤ P) (data : List Byte) (hd : data ≠ []) :
    chunksOf P data = data.take P :: chunksOf P (data.drop P) := by
  cases data with
  | nil => exact absurd rfl hd
  | cons d ds =>
    show chunksOfGo (d :: ds).length P _ = _
    simp only [List.length_cons, chunksOfGo, if_neg (by omega : ¬ P = 0)]
    apply congrArg
    unfold chunksOf
    apply chunksOfGo_irrel P hP ((d :: ds).drop P).length _ _ _ rfl ?_ le_rfl
    simp only [List.length_drop, List.length_cons]
    omega

theorem chunksOf_flatten_aux (P : Nat) (hP : 1 ≤ P) :
    ∀ (n : Nat) (data : List Byte), data.length = n → (chunksOf P data).flatten = data := by
  intro n
  induction n using Nat.strong_induction_on with
  | _ n ih =>
    intro data hlen
    cases data with
    | nil => simp [chunksOf_nil]
    | cons d ds =>
      simp only [List.length_cons] at hlen
      rw [chunksOf_cons P hP _ (by simp), List.flatten_cons,
        ih (((d :: ds).drop P).length) ?_ _ rfl, List.take_append_drop]
      simp only [List.length_drop, List.length_cons]
      omega

theorem chunksOf_flatten (P : Nat) (hP : 1 ≤ P) (data : List Byte) :
    (chunksOf P data).flatten = data :=
  chunksOf_flatten_aux P hP data.length data rfl

theorem chunksOf_small (P : Nat) (data : List Byte) (hd : data ≠ [])
    (hle : data.length ≤ P) : chunksOf P data = [data] := by
  have hP : 1 ≤ P := by
    cases data with
    | nil => exact absurd rfl hd
    | cons x xs => simp only [List.length_cons] at hle; omega
  rw [chunksOf_cons P hP data hd, List.take_of_length_le hle,
    List.drop_eq_nil_of_le hle, chunksOf_nil]

/-! ### Lemmas: the `S3Etag` update loop -/

theorem s3UpdateFuel_succ (md5f : List Byte → List Byte) (g : Nat) (st : S3EtagState)
    (data : List Byte) :
    s3UpdateFuel md5f (g + 1) st data =
      if st.part_size ≤ data.length + st.current_part_size then
        s3UpdateFuel md5f g
          ⟨st.part_size,
           st.etags ++
             [hexdigest (md5f (st.current ++ data.take (st.part_size - st.current_part_size)))],
           [], 0⟩
          (data.drop (st.part_size - st.current_part_size))
      else some ⟨st.part_size, st.etags, st.current ++ data,
                 st.current_part_size + data.length⟩ := rfl

theorem s3UpdateFuel_irrel (md5f : List Byte → List Byte) :
    ∀ (n : Nat) (st : S3EtagState) (data : List Byte) (f1 f2 : Nat),
      S3Valid st → data.length = n → n < f1 → n < f2 →
      s3UpdateFuel md5f f1 st data = s3UpdateFuel md5f f2 st data := by
  intro n
  induction n using Nat.strong_induction_on with
  | _ n ih =>
    intro st data f1 f2 hv hlen h1 h2
    unfold S3Valid at hv
    cases f1 with
    | zero => omega
    | succ g1 =>
      cases f2 with
      | zero => omega
      | succ g2 =>
        rw [s3UpdateFuel_succ, s3UpdateFuel_succ]
        by_cases hc : st.part_size ≤ data.length + st.current_part_size
        · rw [if_pos hc, if_pos hc]
          refine ih ((data.drop (st.part_size - st.current_part_size)).length)
            (by simp only [List.length_drop]; omega) _ _ g1 g2 ?_ rfl
            (by simp only [List.length_drop]; omega)
            (by simp only [List.length_drop]; omega)
          show (0:Nat) < st.part_size
          omega
        · rw [if_neg hc, if_neg hc]

theorem S3Etag.update_stop (md5f : List Byte → List Byte) (st : S3EtagState)
    (data : List Byte) (h : data.length + st.current_part_size < st.part_size) :
    S3Etag.update md5f st data =
      some ⟨st.part_size, st.etags, st.current ++ data,
            st.current_part_size + data.length⟩ := by
  rw [S3Etag.update, s3UpdateFuel_succ, if_neg (by omega)]

theorem S3Etag.update_step (md5f : List Byte → List Byte) (st : S3EtagState)
    (data : List Byte) (hv : S3Valid st)
    (h : st.part_size ≤ data.length + st.current_part_size) :
    S3Etag.update md5f st data =
      S3Etag.update md5f
        ⟨st.part_size,
         st.etags ++
           [hexdigest (md5f (st.current ++ data.take (st.part_size - st.current_part_size)))],
         [], 0⟩
        (data.drop (st.part_size - st.current_part_size)) := by
  unfold S3Valid at hv
  rw [S3Etag.update, S3Etag.update, s3UpdateFuel_succ, if_pos h]
  refine s3UpdateFuel_irrel md5f ((data.drop (st.part_size - st.current_part_size)).length)
    _ _ _ _ ?_ rfl
    (by simp only [List.length_drop]; omega)
    (by simp only [List.length_drop]; omega)
  show (0:Nat) < st.part_size
  omega

theorem S3Etag.update_some_aux (md5f : List Byte → List Byte) :
    ∀ (n : Nat) (st : S3EtagState) (data : List Byte), S3Valid st → data.length = n →
      ∃ st2, S3Etag.update md5f st data = some st2 ∧ S3Valid st2 ∧
        st2.part_size = st.part_size := by
  intro n
  induction n using Nat.strong_induction_on with
  | _ n ih =>
    intro st data hv hlen
    have hv' := hv
    unfold S3Valid at hv'
    by_cases hc : st.part_size ≤ data.length + st.current_part_size
    · rw [S3Etag.update_step md5f st data hv hc]
      obtain ⟨st2, heq, hv2, hp2⟩ :=
        ih ((data.drop (st.part_size - st.current_part_size)).length)
          (by simp only [List.length_drop]; omega)
          ⟨st.part_size,
           st.etags ++
             [hexdigest (md5f (st.current ++ data.take (st.part_size - st.current_part_size)))],
           [], 0⟩ _
          (show (0:Nat) < st.part_size by omega) rfl
      exact ⟨st2, heq, hv2, hp2⟩
    · rw [S3Etag.update_stop md5f st data (by omega)]
      exact ⟨_, rfl, show st.current_part_size + data.length < st.part_size by omega, rfl⟩

theorem S3Etag.update_some (md5f : List Byte → List Byte) (st : S3EtagState)
    (data : List Byte) (hv : S3Valid st) :
    ∃ st2, S3Etag.update md5f st data = some st2 ∧ S3Valid st2 ∧
      st2.part_size = st.part_size :=
  S3Etag.update_some_aux md5f data.length st data hv rfl

/-- Lemma `S3Etag.update_stop` with the state fields spelled out. -/
theorem S3Etag.update_stop_mk (md5f : List Byte → List Byte) (ps : Nat)
    (etags : List String) (cur : List Byte) (cps : Nat) (data : List Byte)
    (h : data.length + cps < ps) :
    S3Etag.update md5f ⟨ps, etags, cur, cps⟩ data =
      some ⟨ps, etags, cur ++ data, cps + data.length⟩ :=
  S3Etag.update_stop md5f ⟨ps, etags, cur, cps⟩ data h

/-- Lemma `S3Etag.update_step` with the state fields spelled out. -/
theorem S3Etag.update_step_mk (md5f : List Byte → List Byte) (ps : Nat)
    (etags : List String) (cur : List Byte) (cps : Nat) (data : List Byte)
    (hv : cps < ps) (h : ps ≤ data.length + cps) :
    S3Etag.update md5f ⟨ps, etags, cur, cps⟩ data =
      S3Etag.update md5f
        ⟨ps, etags ++ [hexdigest (md5f (cur ++ data.take (ps - cps)))], [], 0⟩
        (data.drop (ps - cps)) :=
  S3Etag.update_step md5f ⟨ps, etags, cur, cps⟩ data hv h

/-- Updating with `d1 ++ d2` is updating with `d1`, then with `d2`. -/
theorem S3Etag.update_append_aux (md5f : List Byte → List Byte) :
    ∀ (n : Nat) (st : S3EtagState) (d1 d2 : List Byte), S3Valid st → d1.length = n →
      S3Etag.update md5f st (d1 ++ d2) =
        (S3Etag.update md5f st d1).bind (fun st1 => S3Etag.update md5f st1 d2) := by
  intro n
  induction n using Nat.strong_induction_on with
  | _ n ih =>
    intro st d1 d2 hv hlen
    have hv' := hv
    unfold S3Valid at hv'
    by_cases hc1 : st.part_size ≤ d1.length + st.current_part_size
    · -- the first loop iteration consumes to_add ≤ d1.length bytes, the same
      -- ones whether or not d2 is appended
      have hta : st.part_size - st.current_part_size ≤ d1.length := by omega
      have hcc : st.part_size ≤ (d1 ++ d2).length + st.current_part_size := by
        simp only [List.length_append]; omega
      rw [S3Etag.update_step md5f st (d1 ++ d2) hv hcc,
          S3Etag.update_step md5f st d1 hv hc1,
          List.take_append_of_le_length hta, List.drop_append_of_le_length hta]
      exact ih ((d1.drop (st.part_size - st.current_part_size)).length)
        (by simp only [List.length_drop]; omega) _ _ d2
        (show (0:Nat) < st.part_size by omega) rfl
    · -- updating with d1 alone never enters the loop
      rw [S3Etag.update_stop md5f st d1 (by omega), Option.some_bind]
      by_cases hc2 : st.part_size ≤ (d1 ++ d2).length + st.current_part_size
      · have hlen2 : st.part_size ≤ d2.length + (st.current_part_size + d1.length) := by
          simp only [List.length_append] at hc2; omega
        have hta : d1.length ≤ st.part_size - st.current_part_size := by omega
        rw [S3Etag.update_step md5f st (d1 ++ d2) hv hc2,
            S3Etag.update_step_mk md5f st.part_size st.etags (st.current ++ d1)
              (st.current_part_size + d1.length) d2 (by omega) hlen2,
            List.take_append_eq_append_take, List.drop_append_eq_append_drop,
            List.take_of_length_le hta, List.drop_eq_nil_of_le hta, List.nil_append]
        have harith : st.part_size - st.current_part_size - d1.length =
            st.part_size - (st.current_part_size + d1.length) := by omega
        rw [harith, List.append_assoc]
      · have hstop2 : d2.length + (st.current_part_size + d1.length) < st.part_size := by
          simp only [List.length_append] at hc2; omega
        rw [S3Etag.update_stop md5f st (d1 ++ d2)
              (by simp only [List.length_append]; omega),
            S3Etag.update_stop_mk md5f st.part_size st.etags (st.current ++ d1)
              (st.current_part_size + d1.length) d2 hstop2]
        simp only [Option.some.injEq, S3EtagState.mk.injEq, List.append_assoc,
          List.length_append, true_and]
        omega

theorem S3Etag.update_append (md5f : List Byte → List Byte) (st : S3EtagState)
    (d1 d2 : List Byte) (hv : S3Valid st) :
    S3Etag.update md5f st (d1 ++ d2) =
      (S3Etag.update md5f st d1).bind (fun st1 => S3Etag.update md5f st1 d2) :=
  S3Etag.update_append_aux md5f d1.length st d1 d2 hv rfl

/-- Streaming a partition `chunks` of a byte string through `S3Etag.update`
is updating once with the whole string. -/
theorem S3Etag.update_flatten (md5f : List Byte → List Byte) (st : S3EtagState)
    (chunks : List (List Byte)) (hv : S3Valid st) :
    S3Etag.update md5f st chunks.flatten =
      chunks.foldlM (S3Etag.update md5f) st := by
  induction chunks generalizing st with
  | nil =>
    rw [List.flatten_nil, List.foldlM_nil, S3Etag.update_stop]
    · simp
    · unfold S3Valid at hv; simp only [List.length_nil]; omega
  | cons c rest ihc =>
    rw [List.flatten_cons, List.foldlM_cons, S3Etag.update_append md5f st c _ hv]
    obtain ⟨st1, heq, hv1, _⟩ := S3Etag.update_some md5f st c hv
    simp only [heq, Option.some_bind, Option.bind_eq_bind]
    exact ihc st1 hv1

/-- Updating a fresh-part state with `data` succeeds and leaves, after the
final-part flush, exactly one hex digest per `part_size`-chunk of `data`. -/
theorem S3Etag.update_init_aux (md5f : List Byte → List Byte) :
    ∀ (n : Nat) (ps : Nat), 1 ≤ ps → ∀ (etags : List String) (data : List Byte),
      data.length = n →
      ∃ st2, S3Etag.update md5f ⟨ps, etags, [], 0⟩ data = some st2 ∧
        st2.part_size = ps ∧
        s3FinalEtags md5f st2 =
          etags ++ (chunksOf ps data).map (fun c => hexdigest (md5f c)) := by
  intro n
  induction n using Nat.strong_induction_on with
  | _ n ih =>
    intro ps hps etags data hlen
    by_cases hc : ps ≤ data.length
    · have hd : data ≠ [] := by
        cases data with
        | nil => simp only [List.length_nil] at hc; omega
        | cons x xs => simp
      rw [S3Etag.update_step_mk md5f ps etags [] 0 data hps (by omega)]
      simp only [Nat.sub_zero, List.nil_append]
      obtain ⟨st2, heq, hp2, hfe⟩ := ih ((data.drop ps).length)
        (by simp only [List.length_drop]; omega) ps hps
        (etags ++ [hexdigest (md5f (data.take ps))]) (data.drop ps) rfl
      refine ⟨st2, heq, hp2, ?_⟩
      rw [hfe, chunksOf_cons ps hps data hd, List.map_cons, List.append_assoc,
        List.singleton_append]
    · rw [S3Etag.update_stop_mk md5f ps etags [] 0 data (by omega)]
      simp only [List.nil_append, Nat.zero_add]
      refine ⟨⟨ps, etags, data, data.length⟩, rfl, rfl, ?_⟩
      cases data with
      | nil =>
        simp only [s3FinalEtags, List.length_nil, ne_eq, not_true_eq_false, if_neg,
          chunksOf_nil, List.map_nil, List.append_nil]
        simp
      | cons x xs =>
        rw [chunksOf_small ps (x :: xs) (by simp) (by omega)]
        simp only [s3FinalEtags, List.map_cons, List.map_nil]
        rw [if_pos (by simp)]

/-- A state whose flushed etag list is the per-chunk digests of `data`
produces exactly the spec-side composite ETag. -/
theorem S3Etag.s3_etag_spec (md5f : List Byte → List Byte) (ps : Nat) (hps : 1 ≤ ps)
    (st : S3EtagState) (data : List Byte)
    (hfe : s3FinalEtags md5f st = (chunksOf ps data).map (fun c => hexdigest (md5f c))) :
    S3Etag.s3_etag md5f st = specCompositeEtag md5f ps data := by
  unfold S3Etag.s3_etag specCompositeEtag
  rw [hfe]
  simp only [List.length_map]
  by_cases h1 : (chunksOf ps data).length = 1
  · rw [if_pos h1, if_pos h1]
    obtain ⟨c, hc⟩ := List.length_eq_one.mp h1
    have hflat := chunksOf_flatten ps hps data
    rw [hc] at hflat ⊢
    simp only [List.flatten_cons, List.flatten_nil, List.append_nil] at hflat
    rw [hflat]
    simp
  · rw [if_neg h1, if_neg h1]
    have hmap : ((chunksOf ps data).map (fun c => hexdigest (md5f c))).map unhexlify =
        (chunksOf ps data).map md5f := by
      rw [List.map_map]
      exact List.map_congr_left (fun c _ => unhexlify_hexdigest (md5f c))
    rw [hmap]

/-- One-shot run of a fresh `S3Etag` verifier: it succeeds and its
`s3_etag()` is the spec-side composite ETag for its part size. -/
theorem S3Etag.oneshot_spec (md5f : List Byte → List Byte) (ps : Nat) (hps : 1 ≤ ps)
    (data : List Byte) :
    ∃ st2, S3Etag.update md5f (S3Etag.init ps) data = some st2 ∧
      st2.part_size = ps ∧
      S3Etag.s3_etag md5f st2 = specCompositeEtag md5f ps data := by
  obtain ⟨st2, heq, hp2, hfe⟩ :=
    S3Etag.update_init_aux md5f data.length ps hps [] data rfl
  rw [List.nil_append] at hfe
  exact ⟨st2, heq, hp2, S3Etag.s3_etag_spec md5f ps hps st2 data hfe⟩

/-! ### Lemmas: `S3MultiEtag` and the layout enumeration -/

theorem _s3_multipart_layouts_pos (S N : Nat) (hS : 1 ≤ S) (ls : List Nat)
    (hl : _s3_multipart_layouts S N = some ls) : ∀ p ∈ ls, 1 ≤ p := by
  unfold _s3_multipart_layouts at hl
  have hMB : 1 ≤ MB := by norm_num [MB]
  by_cases h1 : N = 1
  · rw [if_pos h1] at hl
    obtain rfl : [S] = ls := Option.some.inj hl
    intro p hp
    simp only [List.mem_singleton] at hp
    omega
  · rw [if_neg h1] at hl
    by_cases h2 : S < MB
    · rw [if_pos h2] at hl; exact absurd hl (by simp)
    · rw [if_neg h2] at hl
      by_cases h3 : N = 0
      · rw [if_pos h3] at hl; exact absurd hl (by simp)
      · rw [if_neg h3] at hl
        have hmin : 1 ≤ cdiv S (N * MB) * MB := by
          have : 1 ≤ cdiv S (N * MB) := by
            unfold cdiv
            rw [Nat.le_div_iff_mul_le (by positivity)]
            omega
          calc 1 ≤ 1 * 1 := by omega
          _ ≤ cdiv S (N * MB) * MB := Nat.mul_le_mul this hMB
        by_cases h4 : cdiv S (N * MB) * MB = (cdiv S ((N - 1) * MB) - 1) * MB
        · rw [if_pos h4] at hl
          obtain rfl : _ = ls := Option.some.inj hl
          intro p hp
          simp only [List.mem_singleton] at hp
          omega
        · rw [if_neg h4] at hl
          obtain rfl : _ = ls := Option.some.inj hl
          intro p hp
          simp only [List.mem_map, List.mem_range] at hp
          obtain ⟨i, _, rfl⟩ := hp
          omega

theorem S3MultiEtag.mk_eq (S N : Nat) (sts : List S3EtagState)
    (hmk : S3MultiEtag.mk S N = some sts) :
    ∃ ls, _s3_multipart_layouts S N = some ls ∧ ls.length ≤ 5 ∧
      sts = ls.map S3Etag.init := by
  unfold S3MultiEtag.mk at hmk
  cases hls : _s3_multipart_layouts S N with
  | none => rw [hls] at hmk; exact absurd hmk (by simp)
  | some ls =>
    rw [hls] at hmk
    simp only [Option.some_bind] at hmk
    by_cases h5 : 5 < ls.length
    · rw [if_pos h5] at hmk; exact absurd hmk (by simp)
    · rw [if_neg h5] at hmk
      exact ⟨ls, rfl, by omega, (Option.some.inj hmk).symm⟩

/-- Running `S3MultiEtag.update` on a list of fresh per-layout verifiers: succeeds,
and the candidate ETags are exactly the spec-side composite ETags of the
layouts. -/
theorem S3MultiEtag.update_init_spec (md5f : List Byte → List Byte) (ls : List Nat)
    (hpos : ∀ p ∈ ls, 1 ≤ p) (data : List Byte) :
    ∃ sts2, S3MultiEtag.update md5f (ls.map S3Etag.init) data = some sts2 ∧
      S3MultiEtag.s3_etags md5f sts2 =
        ls.map (fun p => specCompositeEtag md5f p data) := by
  induction ls with
  | nil => exact ⟨[], rfl, rfl⟩
  | cons p ls ihl =>
    obtain ⟨st2, heq, _, hetag⟩ :=
      S3Etag.oneshot_spec md5f p (hpos p (by simp)) data
    obtain ⟨sts2, heqs, hetags⟩ := ihl (fun q hq => hpos q (by simp [hq]))
    refine ⟨st2 :: sts2, ?_, ?_⟩
    · unfold S3MultiEtag.update at heqs ⊢
      simp only [List.map_cons, List.mapM_cons, heq, heqs, Option.some_bind,
        Option.bind_eq_bind]
      rfl
    · unfold S3MultiEtag.s3_etags at hetags ⊢
      simp only [List.map_cons, hetag, hetags]

theorem S3MultiEtag.updateAll_some (md5f : List Byte → List Byte) (sts : List S3EtagState)
    (hval : ∀ st ∈ sts, S3Valid st) (data : List Byte) :
    ∃ sts2, S3MultiEtag.update md5f sts data = some sts2 ∧
      ∀ st2 ∈ sts2, S3Valid st2 := by
  induction sts with
  | nil => exact ⟨[], rfl, by simp⟩
  | cons st sts ihs =>
    obtain ⟨st2, heq, hv2, _⟩ := S3Etag.update_some md5f st data (hval st (by simp))
    obtain ⟨sts2, heqs, hval2⟩ := ihs (fun q hq => hval q (by simp [hq]))
    refine ⟨st2 :: sts2, ?_, ?_⟩
    · unfold S3MultiEtag.update at heqs ⊢
      simp only [List.mapM_cons, heq, heqs, Option.some_bind, Option.bind_eq_bind]
      rfl
    · intro q hq
      rcases List.mem_cons.mp hq with h | h
      · exact h ▸ hv2
      · exact hval2 q h

theorem S3MultiEtag.update_nil (md5f : List Byte → List Byte) (sts : List S3EtagState)
    (hval : ∀ st ∈ sts, S3Valid st) :
    S3MultiEtag.update md5f sts [] = some sts := by
  induction sts with
  | nil => rfl
  | cons st sts ihs =>
    have hv := hval st (by simp)
    unfold S3Valid at hv
    have hst : S3Etag.update md5f st [] = some st := by
      rw [S3Etag.update_stop md5f st [] (by simp only [List.length_nil]; omega)]
      simp
    have ihs2 := ihs (fun q hq => hval q (by simp [hq]))
    unfold S3MultiEtag.update at ihs2 ⊢
    simp only [List.mapM_cons, hst, ihs2, Option.some_bind, Option.bind_eq_bind]
    rfl

theorem S3MultiEtag.updateAll_append (md5f : List Byte → List Byte) (sts : List S3EtagState)
    (hval : ∀ st ∈ sts, S3Valid st) (d1 d2 : List Byte) :
    S3MultiEtag.update md5f sts (d1 ++ d2) =
      (S3MultiEtag.update md5f sts d1).bind
        (fun sts1 => S3MultiEtag.update md5f sts1 d2) := by
  induction sts with
  | nil => rfl
  | cons st sts ihs =>
    obtain ⟨st1, heq1, hv1, _⟩ := S3Etag.update_some md5f st d1 (hval st (by simp))
    obtain ⟨st12, heq12, _, _⟩ := S3Etag.update_some md5f st1 d2 hv1
    obtain ⟨sts1, heqs1, hval1⟩ :=
      S3MultiEtag.updateAll_some md5f sts (fun q hq => hval q (by simp [hq])) d1
    obtain ⟨sts12, heqs12, _⟩ := S3MultiEtag.updateAll_some md5f sts1 hval1 d2
    have happ := S3Etag.update_append md5f st d1 d2 (hval st (by simp))
    have happs := ihs (fun q hq => hval q (by simp [hq]))
    unfold S3MultiEtag.update at heqs1 heqs12 happs ⊢
    simp only [List.mapM_cons, happ, happs, heq1, heqs1, heq12, heqs12,
      Option.some_bind, Option.bind_eq_bind, Option.pure_def]

/-- Streaming a partition through `S3MultiEtag.update` is one whole-stream
update. -/
theorem S3MultiEtag.updateAll_flatten (md5f : List Byte → List Byte)
    (sts : List S3EtagState) (hval : ∀ st ∈ sts, S3Valid st)
    (chunks : List (List Byte)) :
    S3MultiEtag.update md5f sts chunks.flatten =
      chunks.foldlM (S3MultiEtag.update md5f) sts := by
  induction chunks generalizing sts with
  | nil =>
    rw [List.flatten_nil, List.foldlM_nil, S3MultiEtag.update_nil md5f sts hval]
    rfl
  | cons c rest ihc =>
    rw [List.flatten_cons, List.foldlM_cons,
      S3MultiEtag.updateAll_append md5f sts hval c rest.flatten]
    obtain ⟨sts1, heq1, hval1⟩ := S3MultiEtag.updateAll_some md5f sts hval c
    simp only [heq1, Option.some_bind, Option.bind_eq_bind]
    exact ihc sts1 hval1

/-! ### Lemmas: layout enumeration arithmetic -/

theorem cdiv_mul_ge (S m : Nat) (hm : 1 ≤ m) : S ≤ cdiv S m * m := by
  unfold cdiv
  have h := Nat.div_add_mod (S + m - 1) m
  have h2 := Nat.mod_lt (S + m - 1) (show 0 < m by omega)
  rw [Nat.mul_comm]
  generalize hq : (S + m - 1) / m = q at *
  generalize ht : m * q = t at *
  omega

theorem cdiv_pred_mul_lt (S m : Nat) (hm : 1 ≤ m) (hS : 1 ≤ S) :
    (cdiv S m - 1) * m < S := by
  unfold cdiv
  have h := Nat.div_add_mod (S + m - 1) m
  have h2 := Nat.mod_lt (S + m - 1) (show 0 < m by omega)
  have h3 : 1 ≤ (S + m - 1) / m := by
    rw [Nat.le_div_iff_mul_le (by omega)]
    omega
  generalize hq : (S + m - 1) / m = q at *
  rw [Nat.sub_one_mul, Nat.mul_comm]
  generalize ht : m * q = t at *
  omega

theorem cdiv_pos (S m : Nat) (hm : 1 ≤ m) (hS : 1 ≤ S) : 1 ≤ cdiv S m := by
  unfold cdiv
  rw [Nat.le_div_iff_mul_le (by omega)]
  omega

/-- The map `cdiv S ·` is antitone: a larger divisor gives a smaller ceiling. -/
theorem cdiv_anti (S a b : Nat) (ha : 1 ≤ a) (hab : a ≤ b) (hS : 1 ≤ S) :
    cdiv S b ≤ cdiv S a := by
  by_contra hlt
  push_neg at hlt
  have h1 : S ≤ cdiv S a * a := cdiv_mul_ge S a ha
  have h2 : (cdiv S b - 1) * b < S := cdiv_pred_mul_lt S b (by omega) hS
  have h3 : cdiv S a * a ≤ (cdiv S b - 1) * b :=
    Nat.mul_le_mul (by omega) hab
  omega

/-- For `N ≥ 2` and `S ≥ 1 MiB`, the enumerated layout list is
`[c1*MB, (c1+1)*MB, …, (c2-1)*MB]` where `c1 = ⌈S/(N·MB)⌉` and
`c2 = ⌈S/((N−1)·MB)⌉` — including the empty list when `c2 = c1`. -/
theorem _s3_multipart_layouts_eq (S N : Nat) (h2 : 2 ≤ N) (hS : MB ≤ S) :
    _s3_multipart_layouts S N =
      some ((List.range (cdiv S ((N - 1) * MB) - cdiv S (N * MB))).map
        (fun i => cdiv S (N * MB) * MB + i * MB)) := by
  have hMB : 1 ≤ MB := by norm_num [MB]
  have hS1 : 1 ≤ S := by omega
  have hNMB : 1 ≤ N * MB := by
    calc 1 = 1 * 1 := by omega
    _ ≤ N * MB := Nat.mul_le_mul (by omega) hMB
  have hN1MB : 1 ≤ (N - 1) * MB := by
    calc 1 = 1 * 1 := by omega
    _ ≤ (N - 1) * MB := Nat.mul_le_mul (by omega) hMB
  have hc1pos : 1 ≤ cdiv S (N * MB) := cdiv_pos S (N * MB) hNMB hS1
  have hle : cdiv S (N * MB) ≤ cdiv S ((N - 1) * MB) :=
    cdiv_anti S ((N - 1) * MB) (N * MB) hN1MB
      (Nat.mul_le_mul_right MB (by omega)) hS1
  simp only [_s3_multipart_layouts]
  rw [if_neg (by omega : ¬ N = 1), if_neg (by omega : ¬ S < MB),
      if_neg (by omega : ¬ N = 0)]
  generalize hg1 : cdiv S (N * MB) = c1 at *
  generalize hg2 : cdiv S ((N - 1) * MB) = c2 at *
  by_cases heq : c1 * MB = (c2 - 1) * MB
  · rw [if_pos heq]
    have hc : c1 = c2 - 1 := Nat.eq_of_mul_eq_mul_right (by omega) heq
    have hc2e : c2 - c1 = 1 := by omega
    rw [hc2e, show List.range 1 = [0] from rfl, List.map_singleton]
    norm_num
  · rw [if_neg heq]
    have hcne : c1 ≠ c2 - 1 := fun h => heq (by rw [h])
    congr 2
    by_cases hgt : c1 < c2
    · -- at least two candidates: the Int floor division is exact
      have hsub : (c2 - 1) * MB - c1 * MB = (c2 - 1 - c1) * MB :=
        (Nat.sub_mul (c2 - 1) c1 MB).symm
      rw [← Nat.cast_sub (Nat.mul_le_mul_right MB (by omega : c1 ≤ c2 - 1)), hsub,
        Nat.cast_mul, Int.mul_fdiv_cancel _ (by positivity)]
      congr 1
      omega
    · -- `c2 = c1`: the difference is exactly `-MB` and the range is empty
      have hc2e : c2 = c1 := by omega
      rw [hc2e]
      have hcast : (((c1 - 1) * MB : Nat) : Int) - ((c1 * MB : Nat) : Int) =
          (-1) * MB := by
        rw [Nat.cast_mul, Nat.cast_mul, Nat.cast_sub (by omega : 1 ≤ c1)]
        push_cast
        ring
      rw [hcast, Int.mul_fdiv_cancel _ (by positivity)]
      norm_num

/-! ### Claim C2 -/

/-- Claim C2 counterexample: for `S = 100`, `N = 2` — sizes the claim
quantifies over — the code does not enumerate any candidate set at all: the
`assert size >= MB` in `_s3_multipart_layouts` fails, so no layout list
exists, contradicting the claim's unconditional description of the
enumerated set. -/
theorem C2_counterexample : _s3_multipart_layouts 100 2 = none := by decide

/-- Claim C2 (amended: the description holds for `N = 1` unconditionally and
for `N ≥ 2` when additionally `S ≥ 1 MiB`; for `N ≥ 2` with `S < 1 MiB` the
code raises instead of enumerating): the candidate set for `N = 1` is `[S]`;
for `N ≥ 2`, `S ≥ MiB`, the enumerated list has no duplicates and its
members are exactly the multiples of MiB in `[p_min, p_max]` where
`p_min = ⌈S/(N·MiB)⌉·MiB` and `p_max = (⌈S/((N−1)·MiB)⌉−1)·MiB` (an interval
that collapses to `{p_min}` when `p_min = p_max` and is empty when
`p_max < p_min`); and whenever the candidate list has more than 5 elements,
constructing the verifier fails (the object is ambiguous). -/
theorem C2_s3_layout_enumeration (S N : Nat) :
    (_s3_multipart_layouts S 1 = some [S])
  ∧ (2 ≤ N → MB ≤ S →
      ∃ ls, _s3_multipart_layouts S N = some ls ∧ ls.Nodup ∧
        (∀ p, p ∈ ls ↔
          (cdiv S (N * MB) * MB ≤ p ∧ p ≤ (cdiv S ((N - 1) * MB) - 1) * MB ∧
            MB ∣ (p - cdiv S (N * MB) * MB)))
  ∧ (5 < ls.length → S3MultiEtag.mk S N = none)) := by
  refine ⟨by simp [_s3_multipart_layouts], ?_⟩
  intro h2 hS
  have hMB : 1 ≤ MB := by norm_num [MB]
  have hS1 : 1 ≤ S := by omega
  have hNMB : 1 ≤ N * MB := by
    calc 1 = 1 * 1 := by omega
    _ ≤ N * MB := Nat.mul_le_mul (by omega) hMB
  have hN1MB : 1 ≤ (N - 1) * MB := by
    calc 1 = 1 * 1 := by omega
    _ ≤ (N - 1) * MB := Nat.mul_le_mul (by omega) hMB
  have hc1pos : 1 ≤ cdiv S (N * MB) := cdiv_pos S (N * MB) hNMB hS1
  have hle : cdiv S (N * MB) ≤ cdiv S ((N - 1) * MB) :=
    cdiv_anti S ((N - 1) * MB) (N * MB) hN1MB
      (Nat.mul_le_mul_right MB (by omega)) hS1
  have hlay := _s3_multipart_layouts_eq S N h2 hS
  refine ⟨_, hlay, ?_, ?_, ?_⟩
  · exact (List.nodup_range _).map
      (fun a b hab => by
        have hMBl : MB = 1048576 := by norm_num [MB]
        rw [hMBl] at hab
        omega)
  · generalize hg1 : cdiv S (N * MB) = c1 at *
    generalize hg2 : cdiv S ((N - 1) * MB) = c2 at *
    have hMBl : MB = 1048576 := by norm_num [MB]
    intro p
    constructor
    · intro hp
      simp only [List.mem_map, List.mem_range] at hp
      obtain ⟨i, hi, rfl⟩ := hp
      rw [hMBl] at *
      exact ⟨by omega, by omega, by omega⟩
    · intro ⟨hp1, hp2, hp3⟩
      simp only [List.mem_map, List.mem_range]
      rw [hMBl] at *
      obtain ⟨j, hj⟩ := hp3
      exact ⟨j, by omega, by omega⟩
  · intro hlen
    unfold S3MultiEtag.mk
    rw [hlay]
    simp only [Option.some_bind, if_pos hlen]

/-! ### Claims C1 and C3 -/

/-- Claim C1 counterexample (at abstract digest `fun l => l`): stream
`[42]` of size `S = 1`, part count `N = 1`, splitting part size `P = 2`.
The expected ETag produced from `P = 2` is the single-part MD5 hex, the
verifier built from `(1, 1)` matches it, yet `P = 2` is not in the
enumerated candidate layout set `[1]` — so "matches iff `P` is enumerated"
fails in the only-if direction. -/
theorem C1_counterexample :
    S3MultiEtag.mk 1 1 = some [S3Etag.init 1]
  ∧ (S3MultiEtag.update (fun l => l) [S3Etag.init 1] [(42 : Byte)]).map
      (fun sts => S3MultiEtag.matches (fun l => l) sts
        (specCompositeEtag (fun l => l) 2 [(42 : Byte)])) = some true
  ∧ (2 : Nat) ∉ [(1 : Nat)] := by decide

/-- Claim C1 (amended: the "if" direction and the candidate-ETag
characterisation hold; the "only if" direction does not — see the
counterexample): feeding the whole stream to the verifier built from
`(S, N)` succeeds, `matches(expected)` is true iff some enumerated layout's
spec-side composite ETag equals `expected` (MD5 of the concatenated raw
per-part MD5 digests suffixed with the part count, plain MD5 hex for a
single part), and in particular `matches` succeeds whenever the expected
ETag was produced from a part size `P` in the enumerated layout set. -/
theorem C1_s3_multi_etag_matches (md5f : List Byte → List Byte)
    (S N : Nat) (hS : 1 ≤ S) (data : List Byte) (hdata : data.length = S)
    (sts : List S3EtagState) (hmk : S3MultiEtag.mk S N = some sts)
    (ls : List Nat) (hls : _s3_multipart_layouts S N = some ls) :
    ∃ sts2, S3MultiEtag.update md5f sts data = some sts2 ∧
      (∀ val, S3MultiEtag.matches md5f sts2 val = true ↔
        ∃ P ∈ ls, specCompositeEtag md5f P data = val) ∧
      (∀ P ∈ ls, S3MultiEtag.matches md5f sts2 (specCompositeEtag md5f P data) = true) := by
  obtain ⟨ls2, hls2, hlen2, hsts⟩ := S3MultiEtag.mk_eq S N sts hmk
  have hinj : ls2 = ls := by
    rw [hls2] at hls
    exact Option.some.inj hls
  rw [hinj] at hls2 hsts
  have hpos := _s3_multipart_layouts_pos S N hS ls hls2
  obtain ⟨sts2, hupd, hetags⟩ := S3MultiEtag.update_init_spec md5f ls hpos data
  rw [← hsts] at hupd
  refine ⟨sts2, hupd, ?_, ?_⟩
  · intro val
    unfold S3MultiEtag.matches
    rw [hetags]
    constructor
    · intro hc
      have := List.elem_iff.mp hc
      simpa only [List.mem_map] using this
    · intro ⟨P, hP, hPe⟩
      exact List.elem_iff.mpr (List.mem_map.mpr ⟨P, hP, hPe⟩)
  · intro P hP
    unfold S3MultiEtag.matches
    rw [hetags]
    exact List.elem_iff.mpr (List.mem_map.mpr ⟨P, hP, rfl⟩)

/-- Claim C1 witness: at `S = N = 1`, stream `[42]`, `P = 1` (which is in
the layout set `[1]`), the verifier matches the expected composite ETag. -/
theorem C1_s3_multi_etag_matches_witness :
    ∃ sts2, S3MultiEtag.update (fun l => l) [S3Etag.init 1] [(42 : Byte)] = some sts2 ∧
      (∀ val, S3MultiEtag.matches (fun l => l) sts2 val = true ↔
        ∃ P ∈ [1], specCompositeEtag (fun l => l) P [(42 : Byte)] = val) ∧
      (∀ P ∈ [1], S3MultiEtag.matches (fun l => l) sts2
        (specCompositeEtag (fun l => l) P [(42 : Byte)]) = true) :=
  C1_s3_multi_etag_matches (fun l => l) 1 1 (by decide) [(42 : Byte)] (by decide)
    [S3Etag.init 1] (by decide) [1] (by decide)

theorem foldl_append_eq_flatten (f : List Byte → List Byte → List Byte)
    (hf : ∀ a d, f a d = a ++ d) :
    ∀ (chunks : List (List Byte)) (acc : List Byte),
      chunks.foldl f acc = acc ++ chunks.flatten := by
  intro chunks
  induction chunks with
  | nil => intro acc; simp
  | cons c rest ihc =>
    intro acc
    rw [List.foldl_cons, hf, ihc, List.flatten_cons, List.append_assoc]

/-- Claim C3: for every checksum verifier, the streamed digest is invariant
under how the input is split into `update` calls: feeding any partition
`chunks` of a byte string `b = chunks.flatten` and then checking against the
digest of `b` computed in one shot succeeds.  (For the S3 verifiers the
stream state after the partitioned feed literally equals the one-shot state;
the part size is positive — a zero part size, reachable only as
`S3MultiEtag(0, 1)`, makes the Python update loop spin forever.) -/
theorem C3_stream_partition (md5f crc32cf : List Byte → List Byte)
    (b64e : List Byte → String) (chunks : List (List Byte))
    (ps : Nat) (hps : 1 ≤ ps) (S N : Nat) (hS : 1 ≤ S)
    (msts : List S3EtagState) (hmk : S3MultiEtag.mk S N = some msts) :
    (MD5.matches md5f (chunks.foldl MD5.update MD5.init)
      (hexdigest (md5f chunks.flatten)) = true)
  ∧ (GSCRC32C.matches crc32cf b64e (chunks.foldl GSCRC32C.update GSCRC32C.init)
      (GSCRC32C.gs_crc32c crc32cf b64e chunks.flatten) = true)
  ∧ (∃ st2, chunks.foldlM (S3Etag.update md5f) (S3Etag.init ps) = some st2 ∧
      S3Etag.update md5f (S3Etag.init ps) chunks.flatten = some st2 ∧
      S3Etag.matches md5f st2 (S3Etag.s3_etag md5f st2) = true ∧
      S3Etag.s3_etag md5f st2 = specCompositeEtag md5f ps chunks.flatten)
  ∧ (∃ sts2, chunks.foldlM (S3MultiEtag.update md5f) msts = some sts2 ∧
      S3MultiEtag.update md5f msts chunks.flatten = some sts2 ∧
      ∀ val ∈ S3MultiEtag.s3_etags md5f sts2,
        S3MultiEtag.matches md5f sts2 val = true)
  ∧ (∀ val, NoopChecksum.matches (chunks.foldl NoopChecksum.update ()) val = true) := by
  refine ⟨?_, ?_, ?_, ?_, fun val => rfl⟩
  · rw [foldl_append_eq_flatten MD5.update (fun a d => rfl) chunks MD5.init]
    unfold MD5.matches MD5.init
    rw [List.nil_append]
    exact beq_self_eq_true _
  · rw [foldl_append_eq_flatten GSCRC32C.update (fun a d => rfl) chunks GSCRC32C.init]
    unfold GSCRC32C.matches GSCRC32C.init
    rw [List.nil_append]
    exact beq_self_eq_true _
  · have hv : S3Valid (S3Etag.init ps) := show (0:Nat) < ps by omega
    obtain ⟨st2, hupd, hp2, hetag⟩ := S3Etag.oneshot_spec md5f ps hps chunks.flatten
    refine ⟨st2, ?_, hupd, ?_, hetag⟩
    · rw [← S3Etag.update_flatten md5f _ chunks hv]
      exact hupd
    · unfold S3Etag.matches
      exact beq_self_eq_true _
  · obtain ⟨ls, hls, hlen, hsts⟩ := S3MultiEtag.mk_eq S N msts hmk
    have hpos := _s3_multipart_layouts_pos S N hS ls hls
    have hval : ∀ st ∈ msts, S3Valid st := by
      intro st hst
      rw [hsts] at hst
      obtain ⟨p, hp, rfl⟩ := List.mem_map.mp hst
      exact show (0:Nat) < p from hpos p hp
    obtain ⟨sts2, hupd, _⟩ := S3MultiEtag.updateAll_some md5f msts hval chunks.flatten
    refine ⟨sts2, ?_, hupd, ?_⟩
    · rw [← S3MultiEtag.updateAll_flatten md5f msts hval chunks]
      exact hupd
    · intro val hval2
      unfold S3MultiEtag.matches
      exact List.elem_iff.mpr hval2

/-- Claim C3 witness: a concrete partition of a 3-byte string through each
verifier, with the abstract digests instantiated. -/
theorem C3_stream_partition_witness :
    ((MD5.matches (fun l => l) ([[1], [2, 3]].foldl MD5.update MD5.init)
      (hexdigest ((fun (l : List Byte) => l) [[(1 : Byte)], [(2 : Byte), (3 : Byte)]].flatten)) = true)
  ∧ (GSCRC32C.matches (fun l => l) (fun _ => "x")
      ([[1], [2, 3]].foldl GSCRC32C.update GSCRC32C.init)
      (GSCRC32C.gs_crc32c (fun l => l) (fun _ => "x") [[(1 : Byte)], [(2 : Byte), (3 : Byte)]].flatten) = true)
  ∧ (∃ st2, [[1], [2, 3]].foldlM (S3Etag.update (fun l => l)) (S3Etag.init 2) = some st2 ∧
      S3Etag.update (fun l => l) (S3Etag.init 2) [[(1 : Byte)], [(2 : Byte), (3 : Byte)]].flatten = some st2 ∧
      S3Etag.matches (fun l => l) st2 (S3Etag.s3_etag (fun l => l) st2) = true ∧
      S3Etag.s3_etag (fun l => l) st2 =
        specCompositeEtag (fun l => l) 2 [[(1 : Byte)], [(2 : Byte), (3 : Byte)]].flatten)
  ∧ (∃ sts2, [[1], [2, 3]].foldlM (S3MultiEtag.update (fun l => l)) [S3Etag.init 1] = some sts2 ∧
      S3MultiEtag.update (fun l => l) [S3Etag.init 1] [[(1 : Byte)], [(2 : Byte), (3 : Byte)]].flatten = some sts2 ∧
      ∀ val ∈ S3MultiEtag.s3_etags (fun l => l) sts2,
        S3MultiEtag.matches (fun l => l) sts2 val = true)
  ∧ (∀ val, NoopChecksum.matches ([[1], [2, 3]].foldl NoopChecksum.update ()) val = true)) :=
  C3_stream_partition (fun l => l) (fun l => l) (fun _ => "x")
    [[(1 : Byte)], [(2 : Byte), (3 : Byte)]] 2 (by decide) 1 1 (by decide)
    [S3Etag.init 1] (by decide)

/-! ### Claim C4 -/

theorem cdiv_zero_left (c : Nat) (hc : 1 ≤ c) : cdiv 0 c = 0 := by
  unfold cdiv
  rw [Nat.zero_add, Nat.div_eq_of_lt (by omega)]

/-- The last plan entry's length closes the interval exactly:
`(N−1)·c + (size mod c or c) = size`. -/
theorem last_len_eq (size c : Nat) (hc : 1 ≤ c) (hs : 1 ≤ size) :
    (cdiv size c - 1) * c + (if size % c = 0 then c else size % c) = size := by
  have h1 := cdiv_mul_ge size c hc
  have h2 := cdiv_pred_mul_lt size c hc hs
  have hN : 1 ≤ cdiv size c := cdiv_pos size c hc hs
  have hcc : c ≤ cdiv size c * c :=
    calc c = 1 * c := (Nat.one_mul c).symm
    _ ≤ cdiv size c * c := Nat.mul_le_mul_right c hN
  have h3 : cdiv size c * c = (cdiv size c - 1) * c + c := by
    rw [Nat.sub_one_mul]
    omega
  have hmod : size % c = (size - (cdiv size c - 1) * c) % c := by
    conv_lhs => rw [← Nat.sub_add_cancel (Nat.le_of_lt h2)]
    rw [Nat.add_mul_mod_self_right]
  rw [h3] at h1
  by_cases hd : size - (cdiv size c - 1) * c = c
  · have hz : size % c = 0 := by rw [hmod, hd, Nat.mod_self]
    rw [if_pos hz]
    omega
  · have hdlt : size - (cdiv size c - 1) * c < c := by omega
    have hz : size % c = size - (cdiv size c - 1) * c := by
      rw [hmod]
      exact Nat.mod_eq_of_lt hdlt
    rw [hz, if_neg (by omega)]
    omega

theorem sum_map_const_range (n c : Nat) :
    ((List.range n).map (fun _ => c)).sum = n * c := by
  induction n with
  | zero => simp
  | succ m ih =>
    rw [List.range_succ, List.map_append, List.sum_append, ih]
    simp [Nat.succ_mul]

theorem part_coords_getD (size c i : Nat) (h : i < cdiv size c) :
    (part_coords size c).getD i (0, 0, 0) = (i, _part_range size c i) := by
  unfold part_coords _number_of_parts
  rw [List.getD_eq_getElem?_getD, List.getElem?_map, List.getElem?_range h]
  rfl

/-- Claim C4: for `size ≥ 0` and `chunk_size ≥ 1` the plan has exactly
`N = ⌈size/chunk_size⌉` entries; entry `i` is
`(i, i·chunk_size, chunk_size)` except the last, whose length is
`size mod chunk_size` when non-zero and `chunk_size` otherwise; the lengths
sum to `size`; consecutive entries tile `[0, size)` with no gaps or
overlaps. -/
theorem C4_part_coords (size chunk_size : Nat) (hc : 1 ≤ chunk_size) :
    (part_coords size chunk_size).length = cdiv size chunk_size
  ∧ (∀ i, i < cdiv size chunk_size →
      (part_coords size chunk_size).getD i (0, 0, 0) =
        (i, i * chunk_size,
         if i = cdiv size chunk_size - 1 then
           (if size % chunk_size = 0 then chunk_size else size % chunk_size)
         else chunk_size))
  ∧ ((part_coords size chunk_size).map (fun e => e.2.2)).sum = size
  ∧ (∀ i, i + 1 < cdiv size chunk_size →
      ((part_coords size chunk_size).getD (i + 1) (0, 0, 0)).2.1 =
        ((part_coords size chunk_size).getD i (0, 0, 0)).2.1 +
        ((part_coords size chunk_size).getD i (0, 0, 0)).2.2)
  ∧ (1 ≤ cdiv size chunk_size →
      ((part_coords size chunk_size).getD 0 (0, 0, 0)).2.1 = 0 ∧
      ((part_coords size chunk_size).getD (cdiv size chunk_size - 1) (0, 0, 0)).2.1 +
        ((part_coords size chunk_size).getD (cdiv size chunk_size - 1) (0, 0, 0)).2.2
        = size) := by
  have hgetd : ∀ i, i < cdiv size chunk_size →
      (part_coords size chunk_size).getD i (0, 0, 0) =
        (i, i * chunk_size,
         if i = cdiv size chunk_size - 1 then
           (if size % chunk_size = 0 then chunk_size else size % chunk_size)
         else chunk_size) := by
    intro i hi
    rw [part_coords_getD size chunk_size i hi]
    unfold _part_range _number_of_parts
    by_cases hl : i = cdiv size chunk_size - 1
    · rw [if_pos hl, if_pos hl]
    · rw [if_neg hl, if_neg hl]
  refine ⟨?_, hgetd, ?_, ?_, ?_⟩
  · unfold part_coords _number_of_parts
    rw [List.length_map, List.length_range]
  · by_cases hs : size = 0
    · subst hs
      unfold part_coords _number_of_parts
      rw [cdiv_zero_left chunk_size hc]
      simp
    · have hN : 1 ≤ cdiv size chunk_size := cdiv_pos size chunk_size hc (by omega)
      unfold part_coords _number_of_parts
      have hNs : cdiv size chunk_size = (cdiv size chunk_size - 1) + 1 := by omega
      rw [hNs, List.range_succ, List.map_append, List.map_append, List.sum_append]
      have hpre : ((List.range (cdiv size chunk_size - 1)).map
            (fun part_id => (part_id, _part_range size chunk_size part_id))).map
            (fun e => e.2.2) =
          (List.range (cdiv size chunk_size - 1)).map (fun _ => chunk_size) := by
        rw [List.map_map]
        apply List.map_congr_left
        intro a ha
        simp only [List.mem_range] at ha
        show (_part_range size chunk_size a).2 = chunk_size
        unfold _part_range _number_of_parts
        rw [if_neg (by omega)]
      rw [hpre, sum_map_const_range]
      have hlast : ([cdiv size chunk_size - 1].map
            (fun part_id => (part_id, _part_range size chunk_size part_id))).map
            (fun e => e.2.2) =
          [if size % chunk_size = 0 then chunk_size else size % chunk_size] := by
        simp only [List.map_singleton]
        show [(_part_range size chunk_size (cdiv size chunk_size - 1)).2] = _
        unfold _part_range _number_of_parts
        rw [if_pos rfl]
      rw [hlast]
      simp only [List.sum_cons, List.sum_nil, Nat.add_zero]
      exact last_len_eq size chunk_size hc (by omega)
  · intro i hi
    rw [hgetd (i + 1) hi, hgetd i (by omega)]
    simp only []
    rw [if_neg (by omega : ¬ i = cdiv size chunk_size - 1)]
    ring
  · intro hN
    constructor
    · rw [hgetd 0 (by omega)]
      simp
    · rw [hgetd (cdiv size chunk_size - 1) (by omega)]
      simp only [if_pos rfl]
      by_cases hs : size = 0
      · subst hs
        rw [cdiv_zero_left chunk_size hc] at hN
        omega
      · exact last_len_eq size chunk_size hc (by omega)

/-- Claim C4 witness: `size = 7`, `chunk_size = 3` — three entries
`(0,0,3), (1,3,3), (2,6,1)`. -/
theorem C4_part_coords_witness :
    (part_coords 7 3).length = cdiv 7 3
  ∧ (∀ i, i < cdiv 7 3 →
      (part_coords 7 3).getD i (0, 0, 0) =
        (i, i * 3,
         if i = cdiv 7 3 - 1 then (if 7 % 3 = 0 then 3 else 7 % 3) else 3))
  ∧ ((part_coords 7 3).map (fun e => e.2.2)).sum = 7
  ∧ (∀ i, i + 1 < cdiv 7 3 →
      ((part_coords 7 3).getD (i + 1) (0, 0, 0)).2.1 =
        ((part_coords 7 3).getD i (0, 0, 0)).2.1 +
        ((part_coords 7 3).getD i (0, 0, 0)).2.2)
  ∧ (1 ≤ cdiv 7 3 →
      ((part_coords 7 3).getD 0 (0, 0, 0)).2.1 = 0 ∧
      ((part_coords 7 3).getD (cdiv 7 3 - 1) (0, 0, 0)).2.1 +
        ((part_coords 7 3).getD (cdiv 7 3 - 1) (0, 0, 0)).2.2 = 7) :=
  C4_part_coords 7 3 (by decide)

/-- Claim C2 witness: the spec's own example `S = 54743580`, `N = 4`. -/
theorem C2_s3_layout_enumeration_witness :
    (_s3_multipart_layouts 54743580 1 = some [54743580])
  ∧ (∃ ls, _s3_multipart_layouts 54743580 4 = some ls ∧ ls.Nodup ∧
      (∀ p, p ∈ ls ↔
        (cdiv 54743580 (4 * MB) * MB ≤ p ∧
          p ≤ (cdiv 54743580 ((4 - 1) * MB) - 1) * MB ∧
          MB ∣ (p - cdiv 54743580 (4 * MB) * MB)))
      ∧ (5 < ls.length → S3MultiEtag.mk 54743580 4 = none)) :=
  ⟨(C2_s3_layout_enumeration 54743580 4).1,
   (C2_s3_layout_enumeration 54743580 4).2 (by norm_num) (by norm_num [MB])⟩

/-! ### Claim C5 -/

/-- In a wrapped slice of length at most the capacity, the slice length
splits as (capacity − physical start) + physical stop. -/
theorem wrap_arith (C a b : Nat) (hC : 0 < C) (hab : a < b) (hle : b - a ≤ C)
    (hw : b % C ≤ a % C) : b - a = C - a % C + b % C := by
  have hs := Nat.mod_lt a hC
  have ht := Nat.mod_lt b hC
  have hbeq : b = a + (b - a) := by omega
  have h1 : b % C = (a % C + (b - a)) % C := by
    conv_lhs => rw [hbeq]
    rw [← Nat.mod_add_mod]
  by_cases hk : a % C + (b - a) < C
  · rw [h1, Nat.mod_eq_of_lt hk] at hw
    omega
  · have h2 : (a % C + (b - a)) % C = a % C + (b - a) - C := by
      rw [Nat.mod_eq_sub_mod (by omega)]
      exact Nat.mod_eq_of_lt (by omega)
    rw [h1, h2]
    omega

/-- Claim C5: circular-buffer index arithmetic.  For a logical slice
`[a, b)` with `0 < b − a ≤ C` over a buffer of capacity `C`:
a non-wrapping slice reads exactly physical `[a mod C, b mod C)`; a wrapped
slice reads only the physical tail `[a mod C, C)`; a wrapped write stores the
first `C − a mod C` source bytes at `[a mod C, C)` and the remaining bytes
from physical position 0 (leaving `[b mod C, a mod C)` untouched); a slice
longer than the capacity is refused. -/
theorem C5_circular_buffer (buf : List Byte) (a b : Nat) (data : List Byte)
    (hC : 0 < buf.length) (hab : a < b) :
    (b - a ≤ buf.length ∧ a % buf.length < b % buf.length →
      SharedCircularBuffer.getSlice buf a b =
        some ((buf.drop (a % buf.length)).take (b % buf.length - a % buf.length)))
  ∧ (b - a ≤ buf.length ∧ b % buf.length ≤ a % buf.length →
      SharedCircularBuffer.getSlice buf a b = some (buf.drop (a % buf.length)))
  ∧ (b - a ≤ buf.length ∧ b % buf.length ≤ a % buf.length ∧ data.length = b - a →
      SharedCircularBuffer.setSlice buf a b data =
        some (data.drop (buf.length - a % buf.length) ++
              (buf.take (a % buf.length)).drop (b % buf.length) ++
              data.take (buf.length - a % buf.length)))
  ∧ (buf.length < b - a →
      SharedCircularBuffer.getSlice buf a b = none ∧
      SharedCircularBuffer.setSlice buf a b data = none) := by
  have hs := Nat.mod_lt a hC
  have ht := Nat.mod_lt b hC
  refine ⟨?_, ?_, ?_, ?_⟩
  · intro ⟨hle, hnw⟩
    have hflag : (decide (b % buf.length ≤ a % buf.length) ||
        (decide (a ≠ b) && decide (a % buf.length = b % buf.length))) = false := by
      simp only [Bool.or_eq_false_iff, Bool.and_eq_false_iff,
        decide_eq_false_iff_not]
      omega
    unfold SharedCircularBuffer.getSlice _circular_coords
    rw [if_neg (by omega : ¬ a = b), if_neg (by omega : ¬ buf.length < b - a)]
    simp only [Option.some_bind, hflag, Bool.false_eq_true, if_neg,
      not_false_eq_true]
  · intro ⟨hle, hw⟩
    have hflag : (decide (b % buf.length ≤ a % buf.length) ||
        (decide (a ≠ b) && decide (a % buf.length = b % buf.length))) = true := by
      simp only [Bool.or_eq_true, decide_eq_true_eq]
      omega
    unfold SharedCircularBuffer.getSlice _circular_coords
    rw [if_neg (by omega : ¬ a = b), if_neg (by omega : ¬ buf.length < b - a)]
    simp only [Option.some_bind, hflag, if_pos]
  · intro ⟨hle, hw, hdata⟩
    have hk := wrap_arith buf.length a b hC hab hle hw
    have hflag : (decide (b % buf.length ≤ a % buf.length) ||
        (decide (a ≠ b) && decide (a % buf.length = b % buf.length))) = true := by
      simp only [Bool.or_eq_true, decide_eq_true_eq]
      omega
    unfold SharedCircularBuffer.setSlice _circular_coords
    rw [if_neg (by omega : ¬ buf.length < b - a)]
    simp only [Option.some_bind, hflag, if_pos]
    have hcond1 : a % buf.length ≤ buf.length ∧ buf.length ≤ buf.length ∧
        (data.take (buf.length - a % buf.length)).length =
          buf.length - a % buf.length := by
      refine ⟨by omega, le_rfl, ?_⟩
      simp only [List.length_take]
      omega
    unfold mvAssign
    rw [if_pos hcond1, List.drop_length, List.append_nil]
    have hlen1 : (buf.take (a % buf.length) ++
        data.take (buf.length - a % buf.length)).length = buf.length := by
      simp only [List.length_append, List.length_take]
      omega
    have hcond2 : 0 ≤ data.length - (buf.length - a % buf.length) ∧
        data.length - (buf.length - a % buf.length) ≤
          (buf.take (a % buf.length) ++
            data.take (buf.length - a % buf.length)).length ∧
        (data.drop (buf.length - a % buf.length)).length =
          data.length - (buf.length - a % buf.length) - 0 := by
      refine ⟨by omega, ?_, ?_⟩
      · rw [hlen1]; omega
      · simp only [List.length_drop]; omega
    rw [Option.some_bind, if_pos hcond2, List.take_zero, List.nil_append]
    have hL2 : data.length - (buf.length - a % buf.length) = b % buf.length := by
      omega
    rw [hL2, List.drop_append_of_le_length
      (by simp only [List.length_take]; omega), List.append_assoc]
  · intro hbig
    unfold SharedCircularBuffer.getSlice SharedCircularBuffer.setSlice
      _circular_coords
    rw [if_neg (by omega : ¬ a = b), if_pos hbig]
    exact ⟨rfl, rfl⟩

/-- Claim C5 witness: capacity 4, wrapped slice `[3, 6)` (physical start 3,
physical stop 2), written with a 3-byte payload. -/
theorem C5_circular_buffer_witness :
    (6 - 3 ≤ ([10, 11, 12, 13] : List Byte).length ∧
        3 % ([10, 11, 12, 13] : List Byte).length <
          6 % ([10, 11, 12, 13] : List Byte).length →
      SharedCircularBuffer.getSlice ([10, 11, 12, 13] : List Byte) 3 6 =
        some ((([10, 11, 12, 13] : List Byte).drop (3 % 4)).take (6 % 4 - 3 % 4)))
  ∧ (6 - 3 ≤ ([10, 11, 12, 13] : List Byte).length ∧
        6 % ([10, 11, 12, 13] : List Byte).length ≤
          3 % ([10, 11, 12, 13] : List Byte).length →
      SharedCircularBuffer.getSlice ([10, 11, 12, 13] : List Byte) 3 6 =
        some (([10, 11, 12, 13] : List Byte).drop (3 % 4)))
  ∧ (6 - 3 ≤ ([10, 11, 12, 13] : List Byte).length ∧
        6 % ([10, 11, 12, 13] : List Byte).length ≤
          3 % ([10, 11, 12, 13] : List Byte).length ∧
        ([20, 21, 22] : List Byte).length = 6 - 3 →
      SharedCircularBuffer.setSlice ([10, 11, 12, 13] : List Byte) 3 6
          ([20, 21, 22] : List Byte) =
        some (([20, 21, 22] : List Byte).drop (4 - 3 % 4) ++
              ((([10, 11, 12, 13] : List Byte)).take (3 % 4)).drop (6 % 4) ++
              ([20, 21, 22] : List Byte).take (4 - 3 % 4)))
  ∧ (([10, 11, 12, 13] : List Byte).length < 6 - 3 →
      SharedCircularBuffer.getSlice ([10, 11, 12, 13] : List Byte) 3 6 = none ∧
      SharedCircularBuffer.setSlice ([10, 11, 12, 13] : List Byte) 3 6
        ([20, 21, 22] : List Byte) = none) :=
  C5_circular_buffer ([10, 11, 12, 13] : List Byte) 3 6 ([20, 21, 22] : List Byte)
    (by decide) (by decide)

/-! ### Claims C6 and C9 -/

/-- Claim C6, evaluating the code at the failing input: with
`chunk_size = 2` and `buffer_size = 6` the constructor sets
`max_read = (6 - 2) * 2 = 8` (not `6 - 2 = 4`), and a `read(5)` from the
reachable consumer state `start = 1, stop = 6` returns 5 bytes —
more than `buffer_size - chunk_size = 4`. -/
theorem C6_code_eval :
    (URLReaderKeepAlive.init 10 2 6).map (fun st => st.max_read) = some 8
  ∧ ((URLReaderKeepAlive.init 10 2 6).bind (fun st =>
      URLReaderKeepAlive.read { st with rstart := 1, rstop := 6 }
        ([0, 1, 2, 3, 4, 5] : List Byte) 6 5)).map (fun r => r.1.length) = some 5
  ∧ 6 - 2 < 5 := by decide

/-- Claim C9 counterexample: with `shm = 5`, one concurrent download, and
`chunk_size = 1`, the code returns 4, but the largest multiple of
`chunk_size` that fits both `shm / concurrent_downloads = 5` and
`100 * chunk_size = 100` is 5 — the code always gives away one extra
`chunk_size`. -/
theorem C9_counterexample :
    URLReaderKeepAlive.compute_buffer_size 5 1 1 = 4
  ∧ ¬ (∀ m : Int, (∃ k, m = k * 1) → m ≤ Int.fdiv 5 1 → m ≤ 100 * 1 →
        m ≤ URLReaderKeepAlive.compute_buffer_size 5 1 1) := by
  refine ⟨by decide, fun h => ?_⟩
  have h5 := h 5 ⟨5, by decide⟩ (by decide) (by decide)
  rw [show URLReaderKeepAlive.compute_buffer_size 5 1 1 = 4 from by decide] at h5
  omega

/-- Claim C9 (amended: the result is `((shm/cd)/chunk − 1) * chunk` capped at
`100 * chunk` — one full `chunk_size` less than the largest fitting
multiple — and `100 * chunk` when shared memory is unknown): it is always a
multiple of `chunk_size`, never exceeds `100 * chunk_size`, and never
exceeds `shm / concurrent_downloads`. -/
theorem C9_compute_buffer_size (shm cd c : Int) (hcd : 1 ≤ cd) (hc : 1 ≤ c) :
    (URLReaderKeepAlive.compute_buffer_size (-1) cd c = 100 * c)
  ∧ (0 ≤ shm →
      URLReaderKeepAlive.compute_buffer_size shm cd c =
        min ((Int.fdiv (Int.fdiv shm cd) c - 1) * c) (100 * c)
      ∧ c ∣ URLReaderKeepAlive.compute_buffer_size shm cd c
      ∧ URLReaderKeepAlive.compute_buffer_size shm cd c ≤ 100 * c
      ∧ URLReaderKeepAlive.compute_buffer_size shm cd c ≤ Int.fdiv shm cd) := by
  constructor
  · unfold URLReaderKeepAlive.compute_buffer_size
    rw [if_pos rfl]
  · intro hshm
    have hne : shm ≠ -1 := by omega
    have hq1 : (0 : Int) ≤ Int.fdiv shm cd := Int.fdiv_nonneg hshm (by omega)
    have hq2 : Int.fdiv (Int.fdiv shm cd) c * c ≤ Int.fdiv shm cd := by
      have := Int.ediv_mul_le (Int.fdiv shm cd) (show (c : Int) ≠ 0 by omega)
      rwa [Int.fdiv_eq_ediv _ (by omega : (0:Int) ≤ c)]
    have heq : URLReaderKeepAlive.compute_buffer_size shm cd c =
        min ((Int.fdiv (Int.fdiv shm cd) c - 1) * c) (100 * c) := by
      unfold URLReaderKeepAlive.compute_buffer_size
      rw [if_neg hne]
      by_cases hb : (Int.fdiv (Int.fdiv shm cd) c - 1) * c > 100 * c
      · rw [if_pos hb, min_eq_right (by omega)]
      · rw [if_neg hb, min_eq_left (by omega)]
    refine ⟨heq, ?_, ?_, ?_⟩
    · rw [heq]
      rcases le_total ((Int.fdiv (Int.fdiv shm cd) c - 1) * c) (100 * c) with h | h
      · rw [min_eq_left h]; exact ⟨_, (mul_comm _ _)⟩
      · rw [min_eq_right h]; exact ⟨100, (mul_comm _ _)⟩
    · rw [heq]; exact min_le_right _ _
    · rw [heq]
      calc min ((Int.fdiv (Int.fdiv shm cd) c - 1) * c) (100 * c)
          ≤ (Int.fdiv (Int.fdiv shm cd) c - 1) * c := min_le_left _ _
      _ ≤ Int.fdiv (Int.fdiv shm cd) c * c := by nlinarith
      _ ≤ Int.fdiv shm cd := hq2

/-- Claim C9 witness: `shm = 5`, one download, `chunk_size = 1` (also the
counterexample input) and the unknown-memory default. -/
theorem C9_compute_buffer_size_witness :
    (URLReaderKeepAlive.compute_buffer_size (-1) 1 1 = 100 * 1)
  ∧ (0 ≤ (5 : Int) →
      URLReaderKeepAlive.compute_buffer_size 5 1 1 =
        min ((Int.fdiv (Int.fdiv 5 1) 1 - 1) * 1) (100 * 1)
      ∧ (1 : Int) ∣ URLReaderKeepAlive.compute_buffer_size 5 1 1
      ∧ URLReaderKeepAlive.compute_buffer_size 5 1 1 ≤ 100 * 1
      ∧ URLReaderKeepAlive.compute_buffer_size 5 1 1 ≤ Int.fdiv 5 1) :=
  C9_compute_buffer_size 5 1 1 (by decide) (by decide)

/-! ### Claims C7 and C8 -/

/-- Claim C7: for an indirect-open context over `filepath` with temporary
file `tmp` (distinct from `filepath`, as guaranteed by the fresh UUID name):
if the body raises, the final path afterwards holds exactly its pre-call
contents (present or absent) and only the temporary file is removed; if the
body completes, the final path holds exactly the bytes written to the
temporary file and the temporary file is gone — the final path never holds
partially-written data. -/
theorem C7_indirect_open (fs0 : FS) (filepath tmp : String) (body : List Byte)
    (hne : tmp ≠ filepath) :
    (indirect_open.run fs0 filepath tmp body true filepath = fs0 filepath
     ∧ indirect_open.run fs0 filepath tmp body true tmp = none
     ∧ ∀ p, p ≠ tmp → indirect_open.run fs0 filepath tmp body true p = fs0 p)
  ∧ (indirect_open.run fs0 filepath tmp body false filepath = some body
     ∧ indirect_open.run fs0 filepath tmp body false tmp = none
     ∧ ∀ p, p ≠ tmp → p ≠ filepath →
         indirect_open.run fs0 filepath tmp body false p = fs0 p) := by
  have hne2 : filepath ≠ tmp := Ne.symm hne
  constructor
  · refine ⟨?_, ?_, ?_⟩
    · simp [indirect_open.run, indirect_open.exitOps, applyOps, FsOp.apply, hne2]
    · simp [indirect_open.run, indirect_open.exitOps, applyOps, FsOp.apply]
    · intro p hp
      simp [indirect_open.run, indirect_open.exitOps, applyOps, FsOp.apply, hp]
  · refine ⟨?_, ?_, ?_⟩
    · by_cases hex : (fs0 filepath).isSome = true <;>
        simp [indirect_open.run, indirect_open.exitOps, applyOps, FsOp.apply,
          hne2, hne, hex]
    · by_cases hex : (fs0 filepath).isSome = true <;>
        simp [indirect_open.run, indirect_open.exitOps, applyOps, FsOp.apply,
          hne2, hne, hex]
    · intro p hp hp2
      by_cases hex : (fs0 filepath).isSome = true <;>
        simp [indirect_open.run, indirect_open.exitOps, applyOps, FsOp.apply,
          hne2, hne, hex, hp, hp2]

/-- Claim C7 witness: a concrete filesystem where the final path initially
holds `[9]`, the body writes `[1, 2]`. -/
theorem C7_indirect_open_witness :
    (indirect_open.run (fun p => if p = "f" then some [9] else none)
        "f" ".getm-tmp" [1, 2] true "f" =
      (fun p => if p = "f" then some [(9 : Byte)] else none) "f"
     ∧ indirect_open.run (fun p => if p = "f" then some [9] else none)
        "f" ".getm-tmp" [1, 2] true ".getm-tmp" = none
     ∧ ∀ p, p ≠ ".getm-tmp" →
         indirect_open.run (fun p => if p = "f" then some [9] else none)
           "f" ".getm-tmp" [1, 2] true p =
         (fun p => if p = "f" then some [(9 : Byte)] else none) p)
  ∧ (indirect_open.run (fun p => if p = "f" then some [9] else none)
        "f" ".getm-tmp" [1, 2] false "f" = some [1, 2]
     ∧ indirect_open.run (fun p => if p = "f" then some [9] else none)
        "f" ".getm-tmp" [1, 2] false ".getm-tmp" = none
     ∧ ∀ p, p ≠ ".getm-tmp" → p ≠ "f" →
         indirect_open.run (fun p => if p = "f" then some [9] else none)
           "f" ".getm-tmp" [1, 2] false p =
         (fun p => if p = "f" then some [(9 : Byte)] else none) p) :=
  C7_indirect_open (fun p => if p = "f" then some [9] else none)
    "f" ".getm-tmp" [1, 2] (by decide)

/-- Claim C8 counterexample: the one-shot path writes the final path with a
direct `open(filepath, "wb")` — its trace is a single direct write, which is
not the temp-then-link (indirect-open) pattern the claim asserts. -/
theorem C8_counterexample :
    oneshot (fun l => l) (fun l => l) (fun _ => "") "f" [] none =
      (true, [FsOp.write "f" []])
  ∧ usesIndirectWrite "f" [FsOp.write "f" []] = false := by decide

/-- Claim C8 (amended: the orchestrator does route sizes at or below the
threshold to the one-shot path, which reads the whole body and verifies the
checksum before any write — but it then writes the target with a plain
`open(filepath, "wb")`, not via indirect-open; only the multipart path
writes through the temp-then-link pattern): routing, the one-shot trace, the
verify-before-write order, and the multipart path's indirect trace. -/
theorem C8_oneshot_direct_write (md5f crc32cf : List Byte → List Byte)
    (b64e : List Byte → String) (url_size threshold : Nat)
    (filepath tmp : String) (data : List Byte) (cs : GETMChecksum)
    (parts : List (List Byte)) (finalExists : Bool) :
    (_download_path url_size threshold = DownloadPath.oneshot ↔ url_size ≤ threshold)
  ∧ oneshot md5f crc32cf b64e filepath data none = (true, [FsOp.write filepath data])
  ∧ (∀ c2 ok st2, GETMChecksum.update md5f cs data = some c2 →
      GETMChecksum.matchesRun md5f crc32cf b64e c2 = some (ok, st2) →
      oneshot md5f crc32cf b64e filepath data (some cs) =
        (ok, if ok then [FsOp.write filepath data] else []))
  ∧ usesIndirectWrite filepath [FsOp.write filepath data] = false
  ∧ (tmp ≠ filepath →
      (multipart md5f crc32cf b64e filepath tmp parts none finalExists).1 = true ∧
      usesIndirectWrite filepath
        (multipart md5f crc32cf b64e filepath tmp parts none finalExists).2 = true) := by
  refine ⟨?_, rfl, ?_, ?_, ?_⟩
  · unfold _download_path
    constructor
    · intro h
      by_contra hgt
      rw [if_neg (by omega)] at h
      exact absurd h (by simp)
    · intro h
      rw [if_pos (by omega)]
  · intro c2 ok st2 hupd hmat
    unfold oneshot
    simp only [hupd, hmat]
    rcases ok with _ | _ <;> simp
  · unfold usesIndirectWrite
    simp
  · intro hne
    unfold multipart usesIndirectWrite
    rcases finalExists with _ | _ <;>
      simp [List.any_append, List.all_append, hne]

/-- Claim C8 witness: threshold 5 with size 3 routes one-shot; a null
checksum verifies and the file is written directly; the multipart trace for
the same data is indirect. -/
theorem C8_oneshot_direct_write_witness :
    (_download_path 3 5 = DownloadPath.oneshot ↔ 3 ≤ 5)
  ∧ oneshot (fun l => l) (fun l => l) (fun _ => "") "f" [1] none =
      (true, [FsOp.write "f" [1]])
  ∧ (∀ c2 ok st2,
      GETMChecksum.update (fun l => l) (GETMChecksum.init "" Algorithm.null) [1] = some c2 →
      GETMChecksum.matchesRun (fun l => l) (fun l => l) (fun _ => "") c2 = some (ok, st2) →
      oneshot (fun l => l) (fun l => l) (fun _ => "") "f" [1]
          (some (GETMChecksum.init "" Algorithm.null)) =
        (ok, if ok then [FsOp.write "f" [1]] else []))
  ∧ usesIndirectWrite "f" [FsOp.write "f" [1]] = false
  ∧ (".t" ≠ "f" →
      (multipart (fun l => l) (fun l => l) (fun _ => "") "f" ".t" [[1]] none false).1 = true ∧
      usesIndirectWrite "f"
        (multipart (fun l => l) (fun l => l) (fun _ => "") "f" ".t" [[1]] none false).2
        = true) :=
  C8_oneshot_direct_write (fun l => l) (fun l => l) (fun _ => "") 3 5 "f" ".t"
    [1] (GETMChecksum.init "" Algorithm.null) [[1]] false

/-! ### Claim C10 -/

/-- Once `_cs` is cached, every further `update` works on the cached hasher
only — the algorithm and the S3 parameters are never consulted again. -/
theorem GETMChecksum.foldl_cached (md5f : List Byte → List Byte)
    (e : String) (alg : Algorithm) (p : Option (Nat × Nat)) :
    ∀ (rest : List (List Byte)) (c : HasherState),
      rest.foldlM (GETMChecksum.update md5f) ⟨e, alg, p, some c⟩ =
        (rest.foldlM (hasherUpdate md5f) c).map
          (fun c2 => ⟨e, alg, p, some c2⟩) := by
  intro rest
  induction rest with
  | nil => intro c; rfl
  | cons d rest ihr =>
    intro c
    rw [List.foldlM_cons, List.foldlM_cons]
    have hupd : GETMChecksum.update md5f ⟨e, alg, p, some c⟩ d =
        (hasherUpdate md5f c d).map (fun c2 => ⟨e, alg, p, some c2⟩) := rfl
    rw [hupd]
    cases hcd : hasherUpdate md5f c d with
    | none => rfl
    | some c1 =>
      simp only [Option.map_some, Option.bind_eq_bind, Option.some_bind]
      exact ihr c1

/-- Claim C10: a `GETMChecksum` for `s3_etag` fails on the first `update` or
`matches` call unless `set_s3_size_and_part_count` was called beforehand,
whereas `md5`, `gs_crc32c` and `null` succeed without it; no hasher exists
before the first call, and once the first call constructs it, every
subsequent call reuses that same hasher (feeding a sequence of updates is a
single construction followed by hasher-level updates), independently of the
stored S3 parameters. -/
theorem C10_getm_checksum_laziness (md5f crc32cf : List Byte → List Byte)
    (b64e : List Byte → String) (e : String) (data d0 : List Byte)
    (rest : List (List Byte)) (alg : Algorithm) (p : Option (Nat × Nat))
    (c0 : HasherState) (hmk : mkHasher alg p = some c0) :
    (GETMChecksum.update md5f (GETMChecksum.init e .s3_etag) data = none
      ∧ GETMChecksum.matchesRun md5f crc32cf b64e (GETMChecksum.init e .s3_etag) = none)
  ∧ ((GETMChecksum.init e alg).cs = none
      ∧ (∃ g2, GETMChecksum.update md5f (GETMChecksum.init e .md5) data = some g2)
      ∧ (∃ r, GETMChecksum.matchesRun md5f crc32cf b64e (GETMChecksum.init e .md5) = some r)
      ∧ (∃ g2, GETMChecksum.update md5f (GETMChecksum.init e .gs_crc32c) data = some g2)
      ∧ (∃ r, GETMChecksum.matchesRun md5f crc32cf b64e (GETMChecksum.init e .gs_crc32c) = some r)
      ∧ (∃ g2, GETMChecksum.update md5f (GETMChecksum.init e .null) data = some g2)
      ∧ (∃ r, GETMChecksum.matchesRun md5f crc32cf b64e (GETMChecksum.init e .null) = some r))
  ∧ ((d0 :: rest).foldlM (GETMChecksum.update md5f) ⟨e, alg, p, none⟩ =
      ((hasherUpdate md5f c0 d0).bind
        (fun c1 => rest.foldlM (hasherUpdate md5f) c1)).map
        (fun c2 => ⟨e, alg, p, some c2⟩))
  ∧ (∀ (c : HasherState) (p2 : Option (Nat × Nat)),
      GETMChecksum.update md5f ⟨e, alg, p2, some c⟩ data =
        (hasherUpdate md5f c data).map (fun c2 => ⟨e, alg, p2, some c2⟩)) := by
  refine ⟨⟨rfl, rfl⟩, ⟨rfl, ⟨_, rfl⟩, ⟨_, rfl⟩, ⟨_, rfl⟩, ⟨_, rfl⟩, ⟨_, rfl⟩, ⟨_, rfl⟩⟩,
    ?_, fun c p2 => rfl⟩
  rw [List.foldlM_cons]
  have hfirst : GETMChecksum.update md5f ⟨e, alg, p, none⟩ d0 =
      (hasherUpdate md5f c0 d0).map (fun c2 => ⟨e, alg, p, some c2⟩) := by
    unfold GETMChecksum.update GETMChecksum.getCs
    simp only [hmk, Option.some_bind]
  rw [hfirst]
  cases hcd : hasherUpdate md5f c0 d0 with
  | none => rfl
  | some c1 =>
    simp only [Option.map_some, Option.bind_eq_bind, Option.some_bind]
    exact GETMChecksum.foldl_cached md5f e alg p rest c1

/-- Claim C10 witness: `md5` algorithm, two update calls. -/
theorem C10_getm_checksum_laziness_witness :
    (GETMChecksum.update (fun l => l) (GETMChecksum.init "" .s3_etag) [1] = none
      ∧ GETMChecksum.matchesRun (fun l => l) (fun l => l) (fun _ => "")
          (GETMChecksum.init "" .s3_etag) = none)
  ∧ ((GETMChecksum.init "" Algorithm.md5).cs = none
      ∧ (∃ g2, GETMChecksum.update (fun l => l) (GETMChecksum.init "" .md5) [1] = some g2)
      ∧ (∃ r, GETMChecksum.matchesRun (fun l => l) (fun l => l) (fun _ => "")
          (GETMChecksum.init "" .md5) = some r)
      ∧ (∃ g2, GETMChecksum.update (fun l => l) (GETMChecksum.init "" .gs_crc32c) [1] = some g2)
      ∧ (∃ r, GETMChecksum.matchesRun (fun l => l) (fun l => l) (fun _ => "")
          (GETMChecksum.init "" .gs_crc32c) = some r)
      ∧ (∃ g2, GETMChecksum.update (fun l => l) (GETMChecksum.init "" .null) [1] = some g2)
      ∧ (∃ r, GETMChecksum.matchesRun (fun l => l) (fun l => l) (fun _ => "")
          (GETMChecksum.init "" .null) = some r))
  ∧ (([[1], [2]] : List (List Byte)).foldlM (GETMChecksum.update (fun l => l))
        ⟨"", Algorithm.md5, none, none⟩ =
      ((hasherUpdate (fun l => l) (HasherState.md5 MD5.init) [1]).bind
        (fun c1 => ([[2]] : List (List Byte)).foldlM (hasherUpdate (fun l => l)) c1)).map
        (fun c2 => ⟨"", Algorithm.md5, none, some c2⟩))
  ∧ (∀ (c : HasherState) (p2 : Option (Nat × Nat)),
      GETMChecksum.update (fun l => l) ⟨"", Algorithm.md5, p2, some c⟩ [1] =
        (hasherUpdate (fun l => l) c [1]).map
          (fun c2 => ⟨"", Algorithm.md5, p2, some c2⟩)) :=
  C10_getm_checksum_laziness (fun l => l) (fun l => l) (fun _ => "") "" [1] [1]
    [[2]] Algorithm.md5 none (HasherState.md5 MD5.init) rfl
